import Mathlib

/-!
Verification development for the SpeakEasy backend (src/backend/app.py and
src/backend/rag_handler.py): a shallow embedding of the content-addressed
analysis cache, the segment extractor, the resumable rate-limit-aware
summarization job, and the HTTP endpoints, together with theorems settling
the specification's claims about them.
-/

set_option maxRecDepth 4000

/-- JSON values as produced by Python's `json.load`: null, booleans, numbers,
strings, arrays, and insertion-ordered objects. Numbers are modelled as
integers (the inputs relevant here carry integer page numbers). -/
inductive Json where
  | null
  | bool (b : Bool)
  | num (n : Int)
  | str (s : String)
  | arr (xs : List Json)
  | obj (fields : List (String × Json))
deriving Repr

/-- Python dictionaries are modelled as insertion-ordered association lists.
`alookup` is `d[k]` / `d.get(k)`: the value at the first matching key. -/
def alookup {α β : Type} [DecidableEq α] (k : α) : List (α × β) → Option β
  | [] => none
  | (k', v) :: rest => if k' = k then some v else alookup k rest

/-- `d[k] = v` on a Python dict: overwrite in place if the key exists
(keeping its position, as CPython does), otherwise append at the end. -/
def dinsert {α β : Type} [DecidableEq α] (k : α) (v : β) : List (α × β) → List (α × β)
  | [] => [(k, v)]
  | (k', v') :: rest => if k' = k then (k, v) :: rest else (k', v') :: dinsert k v rest

/-- `k in d` on a Python dict. -/
def hasKey {α β : Type} [DecidableEq α] (k : α) (l : List (α × β)) : Bool :=
  (alookup k l).isSome

/-- The keys of a dict in iteration order. -/
def akeys {α β : Type} (l : List (α × β)) : List α :=
  l.map Prod.fst

mutual

/-- Structural equality test for `Json` (needed because the keys of the
in-memory summary dict are raw JSON values). -/
def Json.beq : Json → Json → Bool
  | .null, .null => true
  | .bool a, .bool b => a = b
  | .num a, .num b => a = b
  | .str a, .str b => a = b
  | .arr a, .arr b => Json.beqList a b
  | .obj a, .obj b => Json.beqFields a b
  | _, _ => false

def Json.beqList : List Json → List Json → Bool
  | [], [] => true
  | x :: xs, y :: ys => Json.beq x y && Json.beqList xs ys
  | _, _ => false

def Json.beqFields : List (String × Json) → List (String × Json) → Bool
  | [], [] => true
  | (k, x) :: xs, (l, y) :: ys => k = l && Json.beq x y && Json.beqFields xs ys
  | _, _ => false

end

mutual

theorem Json.beq_iff : ∀ a b : Json, Json.beq a b = true ↔ a = b
  | .null, b => by cases b <;> simp [Json.beq]
  | .bool x, b => by cases b <;> simp [Json.beq]
  | .num x, b => by cases b <;> simp [Json.beq]
  | .str x, b => by cases b <;> simp [Json.beq]
  | .arr xs, b => by
      cases b <;> simp [Json.beq]
      exact Json.beqList_iff xs _
  | .obj fs, b => by
      cases b <;> simp [Json.beq]
      exact Json.beqFields_iff fs _

theorem Json.beqList_iff : ∀ xs ys : List Json, Json.beqList xs ys = true ↔ xs = ys
  | [], ys => by cases ys <;> simp [Json.beqList]
  | x :: xs, ys => by
      cases ys with
      | nil => simp [Json.beqList]
      | cons y ys =>
          simp [Json.beqList, Json.beq_iff x y, Json.beqList_iff xs ys]

theorem Json.beqFields_iff :
    ∀ xs ys : List (String × Json), Json.beqFields xs ys = true ↔ xs = ys
  | [], ys => by cases ys <;> simp [Json.beqFields]
  | (k, x) :: xs, ys => by
      cases ys with
      | nil => simp [Json.beqFields]
      | cons y ys =>
          obtain ⟨l, v⟩ := y
          simp [Json.beqFields, Json.beq_iff x v, Json.beqFields_iff xs ys,
            and_assoc]

end

instance : DecidableEq Json := fun a b =>
  decidable_of_iff (Json.beq a b = true) (Json.beq_iff a b)

/-- `isinstance(x, dict)`. -/
def Json.isObj : Json → Bool
  | .obj _ => true
  | _ => false

/- ### String utilities mirroring the Python operations used by the code -/

/-- Python's `str.lower()` (ASCII-relevant part). -/
def strLower (s : String) : String :=
  ⟨s.data.map Char.toLower⟩

/-- Python's `str.strip()` (ASCII-whitespace part): drop leading and trailing
whitespace characters. -/
def pyStrip (s : String) : String :=
  ⟨((s.data.dropWhile Char.isWhitespace).reverse.dropWhile Char.isWhitespace).reverse⟩

/-- Python's slice `s[:n]`: the first `n` characters. -/
def pyTake (s : String) (n : Nat) : String :=
  ⟨s.data.take n⟩

/-- Does the text start with the given pattern (both as char lists)? -/
def startsWithL : List Char → List Char → Bool
  | [], _ => true
  | _ :: _, [] => false
  | p :: ps, c :: cs => p = c && startsWithL ps cs

/-- Python's `pat in s` substring test, on char lists. -/
def containsL (pat : List Char) : List Char → Bool
  | [] => startsWithL pat []
  | c :: rest => startsWithL pat (c :: rest) || containsL pat rest

/-- Split off the maximal leading run of ASCII digits (the greedy `\d+`). -/
def digitSpan : List Char → List Char × List Char
  | [] => ([], [])
  | c :: rest =>
      if c.isDigit then
        let (d, r) := digitSpan rest
        (c :: d, r)
      else ([], c :: rest)

/-- Digits to the number they denote, as Python's `int` does. -/
def digitsToNat (ds : List Char) : Nat :=
  ds.foldl (fun n c => n * 10 + (c.toNat - 48)) 0

/- ### extract_retry_delay (rag_handler.py lines 25-46) -/

/-- One alternative of the keyword group followed by a literal space, then
greedy digits, then the unit suffix: a faithful rendering of one candidate
match of `(?:retry after|wait|retry in) (\d+)(?:s| seconds)` (resp. the
minutes variant) anchored at the current position. -/
def tryKw (suf : List Char → Bool) (kw : List Char) (cs : List Char) : Option Nat :=
  if startsWithL kw cs then
    let (ds, rest) := digitSpan (cs.drop kw.length)
    if ds ≠ [] && suf rest then some (digitsToNat ds) else none
  else none

/-- The regex alternation tried at one position, in the pattern's order. -/
def kwMatch (suf : List Char → Bool) (cs : List Char) : Option Nat :=
  match tryKw suf "retry after ".data cs with
  | some n => some n
  | none =>
      match tryKw suf "wait ".data cs with
      | some n => some n
      | none => tryKw suf "retry in ".data cs

/-- `re.search`: leftmost position at which the pattern matches. -/
def scanPat (suf : List Char → Bool) : List Char → Option Nat
  | [] => none
  | c :: rest =>
      match kwMatch suf (c :: rest) with
      | some n => some n
      | none => scanPat suf rest

/-- The seconds unit suffix `(?:s| seconds)`. -/
def sufSec (cs : List Char) : Bool :=
  startsWithL ['s'] cs || startsWithL " seconds".data cs

/-- The minutes unit suffix `(?:m| minutes)`. -/
def sufMin (cs : List Char) : Bool :=
  startsWithL ['m'] cs || startsWithL " minutes".data cs

/-- `seconds_pattern.search(str(msg).lower())`, returning group 1 as a number. -/
def secondsSearch (msg : String) : Option Nat :=
  scanPat sufSec (strLower msg).data

/-- `minutes_pattern.search(str(msg).lower())`, returning group 1 as a number. -/
def minutesSearch (msg : String) : Option Nat :=
  scanPat sufMin (strLower msg).data

/-- rag_handler.extract_retry_delay: seconds pattern first, then minutes
(scaled by 60), then the default of 30. -/
def extract_retry_delay (msg : String) : Nat :=
  match secondsSearch msg with
  | some n => n
  | none =>
      match minutesSearch msg with
      | some n => n * 60
      | none => 30

/-- The rate-limit classifier at rag_handler.py line 331: any of the three
phrases occurring in the lowercased error text. -/
def isRateLimit (msg : String) : Bool :=
  containsL "rate limit".data (strLower msg).data ||
  containsL "quota".data (strLower msg).data ||
  containsL "limit exceeded".data (strLower msg).data

example : extract_retry_delay "retry after 20s" = 20 := by decide
example : extract_retry_delay "wait 2 minutes" = 120 := by decide
example : extract_retry_delay "hello" = 30 := by decide
example : isRateLimit "Rate limit exceeded, please retry in 5 seconds" = true := by decide
example : extract_retry_delay "Rate limit exceeded, please retry in 5 seconds" = 5 := by decide

/- ### Segment extraction (rag_handler.generate_section_summaries, lines 191-249) -/

/-- One extracted text segment: the stripped text plus the stored `page` and
`bbox` values (kept as raw JSON, exactly as the code stores them). -/
structure SegData where
  text : String
  page : Json
  bbox : Json
deriving Repr, DecidableEq

/-- The in-memory summaries dict: raw JSON segment ids mapped to the recorded
summary objects. -/
abbrev SMap := List (Json × Json)

/-- The flat-list branch (lines 196-213): for each dict item carrying `text`,
strip the text, take the source id or the `seg_<i>` fallback, and keep the
segment when the stripped text is longer than 10 characters. A non-string
`text` value makes Python's `.strip()` raise, aborting the whole job: that is
the `none` result. -/
def extractListAux : Nat → List Json → List (Json × SegData) → Option (List (Json × SegData))
  | _, [], acc => some acc
  | i, item :: rest, acc =>
      match item with
      | Json.obj fs =>
          match alookup "text" fs with
          | some (Json.str s) =>
              let t := pyStrip s
              let sid := (alookup "id" fs).getD (Json.str ("seg_" ++ toString i))
              let page := (alookup "page_number" fs).getD (Json.num 1)
              let bbox := (alookup "bbox" fs).getD (Json.arr [])
              let acc' := if t.length > 10 then dinsert sid ⟨t, page, bbox⟩ acc else acc
              extractListAux (i + 1) rest acc'
          | some _ => none
          | none => extractListAux (i + 1) rest acc
      | _ => extractListAux (i + 1) rest acc

/-- The `texts` branch of the pages format (lines 222-234). The fallback id
embeds Python's `id(text_block)`, modelled by the address oracle `addr`
applied to the page number and the block's position. -/
def extractTextsAux (addr : Nat → Nat → Nat) (pageNumber : Nat) :
    Nat → List Json → List (Json × SegData) → Option (List (Json × SegData))
  | _, [], acc => some acc
  | idx, b :: rest, acc =>
      match b with
      | Json.obj fs =>
          match alookup "text" fs with
          | some (Json.str s) =>
              let t := pyStrip s
              let sid := (alookup "id" fs).getD
                (Json.str ("text_" ++ toString pageNumber ++ "_" ++ toString (addr pageNumber idx)))
              let bbox := (alookup "bbox" fs).getD (Json.arr [])
              let acc' := if t.length > 10 then dinsert sid ⟨t, Json.num pageNumber, bbox⟩ acc else acc
              extractTextsAux addr pageNumber (idx + 1) rest acc'
          | some _ => none
          | none => extractTextsAux addr pageNumber (idx + 1) rest acc
      | _ => extractTextsAux addr pageNumber (idx + 1) rest acc

/-- The `items` branch of the pages format (lines 237-249): only dict items
whose `type` equals `"text"` are considered; their text comes from `content`
(defaulting to the empty string, hence filtered out when absent). -/
def extractItemsAux (addr : Nat → Nat → Nat) (pageNumber : Nat) :
    Nat → List Json → List (Json × SegData) → Option (List (Json × SegData))
  | _, [], acc => some acc
  | idx, it :: rest, acc =>
      match it with
      | Json.obj fs =>
          if (alookup "type" fs).getD Json.null = Json.str "text" then
            match (alookup "content" fs).getD (Json.str "") with
            | Json.str s =>
                let t := pyStrip s
                let sid := (alookup "id" fs).getD
                  (Json.str ("item_" ++ toString pageNumber ++ "_" ++ toString (addr pageNumber idx)))
                let bbox := (alookup "bbox" fs).getD (Json.arr [])
                let acc' := if t.length > 10 then dinsert sid ⟨t, Json.num pageNumber, bbox⟩ acc else acc
                extractItemsAux addr pageNumber (idx + 1) rest acc'
            | _ => none
          else extractItemsAux addr pageNumber (idx + 1) rest acc
      | _ => extractItemsAux addr pageNumber (idx + 1) rest acc

/-- The per-page dispatch (lines 218-249). Non-dict pages follow Python's
semantics of the `'texts' in page` / `'items' in page` tests: membership on a
list, substring test on a string (each followed by a crashing subscript when
the test succeeds), and a `TypeError` on other types. -/
def extractPagesAux (addr : Nat → Nat → Nat) :
    Nat → List Json → List (Json × SegData) → Option (List (Json × SegData))
  | _, [], acc => some acc
  | pageIdx, p :: rest, acc =>
      let pageNumber := pageIdx + 1
      match p with
      | Json.obj fs =>
          match alookup "texts" fs with
          | some (Json.arr blocks) =>
              match extractTextsAux addr pageNumber 0 blocks acc with
              | some acc' => extractPagesAux addr (pageIdx + 1) rest acc'
              | none => none
          | _ =>
              match alookup "items" fs with
              | some (Json.arr items) =>
                  match extractItemsAux addr pageNumber 0 items acc with
                  | some acc' => extractPagesAux addr (pageIdx + 1) rest acc'
                  | none => none
              | _ => extractPagesAux addr (pageIdx + 1) rest acc
      | Json.arr xs =>
          if Json.str "texts" ∈ xs || Json.str "items" ∈ xs then none
          else extractPagesAux addr (pageIdx + 1) rest acc
      | Json.str s =>
          if containsL "texts".data s.data || containsL "items".data s.data then none
          else extractPagesAux addr (pageIdx + 1) rest acc
      | _ => none

/-- Segment extraction (lines 191-249): dispatch on the top-level shape of the
analysis JSON. `none` models the code paths on which the Python function
raises internally and falls into its catch-all handler. -/
def extractSegments (addr : Nat → Nat → Nat) (data : Json) :
    Option (List (Json × SegData)) :=
  match data with
  | Json.arr items => extractListAux 0 items []
  | Json.obj fs =>
      match alookup "pages" fs with
      | some (Json.arr pages) => extractPagesAux addr 0 pages []
      | _ => some []
  | _ => some []

/- ### The summarization loop (rag_handler.generate_section_summaries, lines 251-375) -/

/-- One outcome of `chain.invoke`: the generated summary text, or an exception
carrying the error message. -/
inductive GenOutcome where
  | ok (summary : String)
  | err (msg : String)
deriving Repr, DecidableEq

/-- Observable actions of a summarization run, in order: a generation call for
a segment id, a durable checkpoint of the current map
(`save_intermediate_results`), a rate-limit backoff sleep of the parsed
delay, and the fixed one-second pacing sleep between segments. -/
inductive Ev where
  | genCall (segId : Json)
  | checkpoint (m : SMap)
  | sleepBackoff (d : Nat)
  | sleepPace
deriving Repr, DecidableEq

/-- The loop state: the summaries dict plus the `batch_count` and
`processed_count` counters and the number of generation calls made so far
(the index into the outcome oracle). -/
structure ASt where
  summaries : SMap
  batch : Nat
  processed : Nat
  calls : Nat
deriving Repr, DecidableEq

/-- The summary record stored for a segment (lines 311-316): dict literal with
keys `summary`, `text`, `page`, `bbox` in this order. -/
def mkRecord (summary text : String) (page bbox : Json) : Json :=
  Json.obj [("summary", Json.str summary), ("text", Json.str text),
            ("page", page), ("bbox", bbox)]

/-- The `while retry_count < max_retries` loop for one segment (lines
302-365). `fuel` is `max_retries - retry_count`, so the loop starts with fuel
5. Each iteration increments the counters, consumes one oracle outcome, and
either records a summary (success), records an error marker and stops
(non-rate-limit failure), checkpoints and sleeps then retries (rate-limit
failure with budget left), or records the rate-limit marker and checkpoints
(budget exhausted). -/
def attemptLoop (oracle : Nat → GenOutcome) (segId : Json) (txt : String)
    (page bbox : Json) : Nat → ASt → ASt × List Ev
  | 0, st => (st, [])
  | fuel + 1, st =>
      let st1 : ASt := { st with processed := st.processed + 1, batch := st.batch + 1 }
      match oracle st1.calls with
      | .ok s =>
          let newMap := dinsert segId (mkRecord (pyStrip s) txt page bbox) st1.summaries
          let st2 : ASt := { st1 with calls := st1.calls + 1, summaries := newMap }
          if st2.batch ≥ 10 then
            ({ st2 with batch := 0 }, [.genCall segId, .checkpoint newMap])
          else (st2, [.genCall segId])
      | .err msg =>
          let st2 : ASt := { st1 with calls := st1.calls + 1 }
          if isRateLimit msg then
            if fuel = 0 then
              let newMap := dinsert segId
                (mkRecord "Rate limit error after 5 retries." txt page bbox) st2.summaries
              ({ st2 with summaries := newMap, batch := 0 },
               [.genCall segId, .checkpoint newMap])
            else
              let d := extract_retry_delay msg
              let next := attemptLoop oracle segId txt page bbox fuel st2
              (next.1, [.genCall segId, .checkpoint st2.summaries, .sleepBackoff d] ++ next.2)
          else
            let newMap := dinsert segId
              (mkRecord ("Error generating summary: " ++ pyTake msg 100 ++ "...") txt page bbox)
              st2.summaries
            ({ st2 with summaries := newMap }, [.genCall segId])

/-- The `for segment_id, segment_data in to_process.items()` loop (lines
297-369), including the one-second pacing sleep inserted while
`processed_count < segments_total`. -/
def segLoop (oracle : Nat → GenOutcome) (total : Nat) :
    List (Json × SegData) → ASt → ASt × List Ev
  | [], st => (st, [])
  | (k, sd) :: rest, st =>
      let r1 := attemptLoop oracle k sd.text sd.page sd.bbox 5 st
      let paceTr : List Ev := if r1.1.processed < total then [Ev.sleepPace] else []
      let r2 := segLoop oracle total rest r1.1
      (r2.1, r1.2 ++ paceTr ++ r2.2)

/-- rag_handler.generate_section_summaries, from the point where the existing
summaries and the analysis JSON have been loaded: extract the segments,
filter out the ones already summarized, fabricate the `full_doc` segment when
a dict yields no segments and nothing was loaded, run the loop, and write the
final checkpoint. `existing` is the map the checkpoint file loaded to;
`dumps` stands for `json.dumps`. `none` models the runs on which extraction
raises and the function's catch-all returns an empty dict. -/
def generate_section_summaries (oracle : Nat → GenOutcome) (addr : Nat → Nat → Nat)
    (dumps : Json → String) (existing : SMap) (data : Json) :
    Option (SMap × List Ev) :=
  match extractSegments addr data with
  | none => none
  | some tsegs =>
      let summaries := existing
      let toProcess := tsegs.filter (fun kv => !hasKey kv.1 summaries)
      let toProcess :=
        if tsegs.isEmpty && data.isObj && summaries.isEmpty then
          [(Json.str "full_doc", (⟨pyTake (dumps data) 1000, Json.num 1, Json.arr []⟩ : SegData))]
        else toProcess
      if toProcess.isEmpty then some (summaries, [])
      else
        let st0 : ASt := ⟨summaries, 0, 0, 0⟩
        let r := segLoop oracle toProcess.length toProcess st0
        some (r.1.summaries, r.2 ++ [Ev.checkpoint r.1.summaries])

/- ### The analyze endpoint's two-tier cache (app.py, lines 59-141) -/

/-- A disk cache entry: a parseable stored result, or a corrupt file (which
`json.load` rejects, line 93, making the lookup a miss). -/
inductive FileEntry where
  | good (j : Json)
  | corrupt
deriving Repr, DecidableEq

/-- The process state relevant to `analyze_pdf`: the in-memory cache, the
file cache, and the number of calls made to the external analysis service. -/
structure AnalyzeSt where
  mem : List (String × Json)
  disk : List (String × FileEntry)
  calls : Nat
deriving Repr, DecidableEq

/-- app.analyze_pdf on a PDF upload with raw bytes `b` (the success path of
the endpoint): hash the exact bytes, try the in-memory cache, then the file
cache (repopulating memory on a hit, treating a corrupt entry as a miss),
otherwise invoke the analysis service once, persist the result when the
write succeeds, and always store it in memory. `hash` is `hashlib.sha256(.)
.hexdigest()` and `svc` the Huridocs collaborator. -/
def analyze_pdf (hash : List Nat → String) (svc : List Nat → Json) (persistOk : Bool)
    (b : List Nat) (st : AnalyzeSt) : Json × AnalyzeSt :=
  let h := hash b
  match alookup h st.mem with
  | some r => (r, st)
  | none =>
      match alookup h st.disk with
      | some (FileEntry.good r) => (r, { st with mem := dinsert h r st.mem })
      | _ =>
          let r := svc b
          let disk' := if persistOk then dinsert h (FileEntry.good r) st.disk else st.disk
          (r, { mem := dinsert h r st.mem, disk := disk', calls := st.calls + 1 })

/- ### The summarize endpoint (app.py, lines 172-295) -/

/-- A response of the summarize endpoint: 404, a JSON payload carrying the
summaries with the `is_partial` flag (`partFlag` here), count, status and
optional error field, or a 500 error. -/
inductive SumResp where
  | notFound
  | results (summaries : SMap) (partFlag : Bool) (count : Nat) (status : String)
      (errMsg : Option String)
  | serverError (msg : String)
deriving Repr, DecidableEq

/-- The HTTP status carried by a summarize response. -/
def SumResp.code : SumResp → Nat
  | .notFound => 404
  | .results _ _ _ _ _ => 200
  | .serverError _ => 500

/- ### The chat endpoint (app.py, lines 144-170) -/

/-- A response of the chat endpoint. `serverError` is the catch-all 500 of
line 170; there is no other error constructor because the handler has no
dedicated unavailable-subsystem response. -/
inductive ChatResp where
  | badRequest
  | notFound
  | ok (result : Json)
  | serverError (msg : String)
deriving Repr, DecidableEq

/-- app.chat_with_document: reject a missing or query-less body (400), then a
missing analysis file (404); then call `rag_handler.query`. When the handler
failed to initialize at boot, `rag_handler` is `None` (app.py lines 33-40)
and the attribute access raises, which the catch-all turns into a 500. -/
def chat_with_document (handlerInit : Bool) (fileExists : Bool)
    (body : Option (List (String × Json))) (queryResult : Json) : ChatResp :=
  match body with
  | none => .badRequest
  | some fs =>
      if fs.isEmpty || !hasKey "query" fs then .badRequest
      else if !fileExists then .notFound
      else if handlerInit then .ok queryResult
      else .serverError "Chat processing error: 'NoneType' object has no attribute 'query'"

/-- The HTTP status carried by a chat response. -/
def ChatResp.code : ChatResp → Nat
  | .badRequest => 400
  | .notFound => 404
  | .ok _ => 200
  | .serverError _ => 500

/- ### Dictionary lemmas -/

theorem alookup_dinsert_self {α β : Type} [DecidableEq α] (k : α) (v : β)
    (l : List (α × β)) : alookup k (dinsert k v l) = some v := by
  induction l with
  | nil => simp [dinsert, alookup]
  | cons kv rest ih =>
      obtain ⟨a, b⟩ := kv
      by_cases h : a = k <;> simp [dinsert, alookup, h, ih]

theorem alookup_dinsert_ne {α β : Type} [DecidableEq α] {k k' : α} (v : β)
    (l : List (α × β)) (h : k' ≠ k) :
    alookup k (dinsert k' v l) = alookup k l := by
  induction l with
  | nil => simp [dinsert, alookup, h]
  | cons kv rest ih =>
      obtain ⟨a, b⟩ := kv
      by_cases h2 : a = k' <;> by_cases h3 : a = k <;>
        simp_all [dinsert, alookup]

theorem hasKey_dinsert {α β : Type} [DecidableEq α] (k k' : α) (v : β)
    (l : List (α × β)) :
    hasKey k (dinsert k' v l) = (decide (k' = k) || hasKey k l) := by
  by_cases h : k' = k
  · subst h; simp [hasKey, alookup_dinsert_self]
  · simp [hasKey, alookup_dinsert_ne v l h, h]

theorem mem_dinsert {α β : Type} [DecidableEq α] {kv : α × β} {k : α} {v : β}
    {l : List (α × β)} : kv ∈ dinsert k v l → kv = (k, v) ∨ kv ∈ l := by
  induction l with
  | nil => intro h; simpa [dinsert] using h
  | cons kv' rest ih =>
      intro h
      obtain ⟨a, b⟩ := kv'
      by_cases h2 : a = k
      · simp only [dinsert, if_pos h2, List.mem_cons] at h
        rcases h with h | h
        · exact Or.inl h
        · exact Or.inr (List.mem_cons_of_mem _ h)
      · simp only [dinsert, if_neg h2, List.mem_cons] at h
        rcases h with h | h
        · exact Or.inr (by simp [h])
        · rcases ih h with h | h
          · exact Or.inl h
          · exact Or.inr (List.mem_cons_of_mem _ h)

/-- `m` has every key of `M`: the key-set ordering underlying the monotonic
growth claims. -/
def keyExt (M m : SMap) : Prop :=
  ∀ j, hasKey j M = true → hasKey j m = true

theorem keyExt_refl (m : SMap) : keyExt m m := fun _ h => h

theorem keyExt_trans {a b c : SMap} (h1 : keyExt a b) (h2 : keyExt b c) :
    keyExt a c := fun j h => h2 j (h1 j h)

theorem keyExt_dinsert (k : Json) (v : Json) (m : SMap) :
    keyExt m (dinsert k v m) := by
  intro j hj
  rw [hasKey_dinsert]
  simp [hj]

/- ### Properties of the per-segment retry loop -/

theorem attemptLoop_records (oracle : Nat → GenOutcome) (k : Json) (txt : String)
    (pg bb : Json) :
    ∀ fuel st, 1 ≤ fuel →
      ∃ s, (attemptLoop oracle k txt pg bb fuel st).1.summaries
            = dinsert k (mkRecord s txt pg bb) st.summaries := by
  intro fuel
  induction fuel with
  | zero => intro st h; exact absurd h (by omega)
  | succ n ih =>
      intro st _
      simp only [attemptLoop]
      cases ho : oracle st.calls with
      | ok s =>
          dsimp only
          by_cases hb : st.batch + 1 ≥ 10
          · rw [if_pos hb]; exact ⟨pyStrip s, rfl⟩
          · rw [if_neg hb]; exact ⟨pyStrip s, rfl⟩
      | err msg =>
          dsimp only
          by_cases hr : isRateLimit msg = true
          · rw [if_pos hr]
            by_cases hn : n = 0
            · rw [if_pos hn]; exact ⟨_, rfl⟩
            · rw [if_neg hn]
              rcases ih _ (by omega : 1 ≤ n) with ⟨s, hs⟩
              exact ⟨s, hs⟩
          · rw [if_neg hr]; exact ⟨_, rfl⟩

theorem attemptLoop_summaries_cases (oracle : Nat → GenOutcome) (k : Json)
    (txt : String) (pg bb : Json) :
    ∀ fuel st, (attemptLoop oracle k txt pg bb fuel st).1.summaries = st.summaries
      ∨ ∃ s, (attemptLoop oracle k txt pg bb fuel st).1.summaries
              = dinsert k (mkRecord s txt pg bb) st.summaries := by
  intro fuel st
  cases fuel with
  | zero => exact Or.inl rfl
  | succ n =>
      exact Or.inr (attemptLoop_records oracle k txt pg bb (n + 1) st (by omega))

theorem attemptLoop_lookup_ne (oracle : Nat → GenOutcome) (k : Json)
    (txt : String) (pg bb : Json) (fuel : Nat) (st : ASt) {j : Json} (hj : j ≠ k) :
    alookup j (attemptLoop oracle k txt pg bb fuel st).1.summaries
      = alookup j st.summaries := by
  rcases attemptLoop_summaries_cases oracle k txt pg bb fuel st with h | ⟨s, h⟩
  · rw [h]
  · rw [h, alookup_dinsert_ne _ _ (fun he => hj he.symm)]

theorem attemptLoop_extends (oracle : Nat → GenOutcome) (k : Json)
    (txt : String) (pg bb : Json) (fuel : Nat) (st : ASt) :
    keyExt st.summaries (attemptLoop oracle k txt pg bb fuel st).1.summaries := by
  rcases attemptLoop_summaries_cases oracle k txt pg bb fuel st with h | ⟨s, h⟩
  · rw [h]; exact keyExt_refl _
  · rw [h]; exact keyExt_dinsert _ _ _

theorem attemptLoop_events (oracle : Nat → GenOutcome) (k : Json) (txt : String)
    (pg bb : Json) :
    ∀ fuel st e, e ∈ (attemptLoop oracle k txt pg bb fuel st).2 →
      e = Ev.genCall k
      ∨ (∃ m, e = Ev.checkpoint m ∧ keyExt st.summaries m)
      ∨ (∃ d, e = Ev.sleepBackoff d) := by
  intro fuel
  induction fuel with
  | zero => intro st e he; simp [attemptLoop] at he
  | succ n ih =>
      intro st e he
      simp only [attemptLoop] at he
      cases ho : oracle st.calls with
      | ok s =>
          rw [ho] at he
          dsimp only at he
          by_cases hb : st.batch + 1 ≥ 10
          · rw [if_pos hb] at he
            simp only [List.mem_cons, List.mem_singleton] at he
            rcases he with he | he | he
            · exact Or.inl he
            · exact Or.inr (Or.inl ⟨_, he, keyExt_dinsert _ _ _⟩)
            · simp at he
          · rw [if_neg hb] at he
            simp only [List.mem_singleton] at he
            exact Or.inl he
      | err msg =>
          rw [ho] at he
          dsimp only at he
          by_cases hr : isRateLimit msg = true
          · rw [if_pos hr] at he
            by_cases hn : n = 0
            · rw [if_pos hn] at he
              simp only [List.mem_cons, List.mem_singleton] at he
              rcases he with he | he | he
              · exact Or.inl he
              · exact Or.inr (Or.inl ⟨_, he, keyExt_dinsert _ _ _⟩)
              · simp at he
            · rw [if_neg hn] at he
              simp only [List.cons_append, List.nil_append, List.mem_cons] at he
              rcases he with he | he | he | he
              · exact Or.inl he
              · exact Or.inr (Or.inl ⟨_, he, keyExt_refl _⟩)
              · exact Or.inr (Or.inr ⟨_, he⟩)
              · rcases ih _ e he with h | ⟨m, hm, hx⟩ | h
                · exact Or.inl h
                · exact Or.inr (Or.inl ⟨m, hm, hx⟩)
                · exact Or.inr (Or.inr h)
          · rw [if_neg hr] at he
            simp only [List.mem_singleton] at he
            exact Or.inl he

/- ### Properties of the segment loop -/

theorem segLoop_extends (oracle : Nat → GenOutcome) (total : Nat) :
    ∀ segs st, keyExt st.summaries (segLoop oracle total segs st).1.summaries := by
  intro segs
  induction segs with
  | nil => intro st; exact keyExt_refl _
  | cons kv rest ih =>
      intro st
      obtain ⟨k, sd⟩ := kv
      simp only [segLoop]
      exact keyExt_trans (attemptLoop_extends oracle k sd.text sd.page sd.bbox 5 st) (ih _)

theorem segLoop_lookup_ne (oracle : Nat → GenOutcome) (total : Nat) :
    ∀ segs st j, j ∉ akeys segs →
      alookup j (segLoop oracle total segs st).1.summaries = alookup j st.summaries := by
  intro segs
  induction segs with
  | nil => intro st j _; rfl
  | cons kv rest ih =>
      intro st j hj
      obtain ⟨k, sd⟩ := kv
      simp only [akeys, List.map_cons, List.mem_cons] at hj
      push_neg at hj
      simp only [segLoop]
      rw [ih _ j (by simpa [akeys] using hj.2),
        attemptLoop_lookup_ne oracle k sd.text sd.page sd.bbox 5 st hj.1]

theorem segLoop_hasKey (oracle : Nat → GenOutcome) (total : Nat) :
    ∀ segs st j, hasKey j (segLoop oracle total segs st).1.summaries
      = (hasKey j st.summaries || decide (j ∈ akeys segs)) := by
  intro segs
  induction segs with
  | nil => intro st j; simp [segLoop, akeys]
  | cons kv rest ih =>
      intro st j
      obtain ⟨k, sd⟩ := kv
      simp only [segLoop]
      rw [ih]
      rcases attemptLoop_records oracle k sd.text sd.page sd.bbox 5 st (by omega)
        with ⟨s, hs⟩
      rw [hs, hasKey_dinsert]
      by_cases hjk : j = k
      · subst hjk; simp [akeys]
      · have h2 : ¬ (k = j) := fun he => hjk he.symm
        have hb : (j == k) = false := beq_eq_false_iff_ne.mpr hjk
        simp [akeys, h2, hjk, hb]

theorem segLoop_events (oracle : Nat → GenOutcome) (total : Nat) :
    ∀ segs st e, e ∈ (segLoop oracle total segs st).2 →
      (∃ j, e = Ev.genCall j ∧ j ∈ akeys segs)
      ∨ (∃ m, e = Ev.checkpoint m ∧ keyExt st.summaries m)
      ∨ (∃ d, e = Ev.sleepBackoff d)
      ∨ e = Ev.sleepPace := by
  intro segs
  induction segs with
  | nil => intro st e he; simp [segLoop] at he
  | cons kv rest ih =>
      intro st e he
      obtain ⟨k, sd⟩ := kv
      simp only [segLoop, List.mem_append] at he
      rcases he with (he | he) | he
      · rcases attemptLoop_events oracle k sd.text sd.page sd.bbox 5 st e he with
          h | ⟨m, hm, hx⟩ | h
        · exact Or.inl ⟨k, h, by simp [akeys]⟩
        · exact Or.inr (Or.inl ⟨m, hm, hx⟩)
        · exact Or.inr (Or.inr (Or.inl h))
      · by_cases hp : (attemptLoop oracle k sd.text sd.page sd.bbox 5 st).1.processed < total
        · rw [if_pos hp] at he
          simp only [List.mem_singleton] at he
          exact Or.inr (Or.inr (Or.inr he))
        · rw [if_neg hp] at he
          simp at he
      · rcases ih _ e he with ⟨j, hj, hmem⟩ | ⟨m, hm, hx⟩ | h | h
        · exact Or.inl ⟨j, hj, by simp [akeys] at hmem ⊢; exact Or.inr hmem⟩
        · exact Or.inr (Or.inl ⟨m, hm,
            keyExt_trans (attemptLoop_extends oracle k sd.text sd.page sd.bbox 5 st) hx⟩)
        · exact Or.inr (Or.inr (Or.inl h))
        · exact Or.inr (Or.inr (Or.inr h))

/- ### Trace predicates -/

/-- Number of generation calls recorded in a trace. -/
def genCallCount : List Ev → Nat
  | [] => 0
  | Ev.genCall _ :: rest => 1 + genCallCount rest
  | _ :: rest => genCallCount rest

/-- Total seconds slept in a trace: parsed backoff delays plus the one-second
pacing sleeps. -/
def sleepSum : List Ev → Nat
  | [] => 0
  | Ev.sleepBackoff d :: rest => d + sleepSum rest
  | Ev.sleepPace :: rest => 1 + sleepSum rest
  | _ :: rest => sleepSum rest

/-- Every rate-limit backoff sleep in the trace immediately follows a durable
checkpoint; `prevCp` says whether the event before the list head was a
checkpoint. -/
def backoffAfterCheckpoint (prevCp : Bool) : List Ev → Bool
  | [] => true
  | Ev.sleepBackoff _ :: rest => prevCp && backoffAfterCheckpoint false rest
  | Ev.checkpoint _ :: rest => backoffAfterCheckpoint true rest
  | _ :: rest => backoffAfterCheckpoint false rest

/-- Was the last event of `l` a checkpoint (`p` when `l` is empty)? -/
def lastCp (p : Bool) : List Ev → Bool
  | [] => p
  | Ev.checkpoint _ :: rest => lastCp true rest
  | _ :: rest => lastCp false rest

theorem backoffAfterCheckpoint_append :
    ∀ (a b : List Ev) (p : Bool),
      backoffAfterCheckpoint p (a ++ b)
        = (backoffAfterCheckpoint p a && backoffAfterCheckpoint (lastCp p a) b) := by
  intro a
  induction a with
  | nil => intro b p; simp [backoffAfterCheckpoint, lastCp]
  | cons e rest ih =>
      intro b p
      cases e <;>
        simp [backoffAfterCheckpoint, lastCp, ih, Bool.and_assoc]

theorem attemptLoop_backoffAfterCheckpoint (oracle : Nat → GenOutcome) (k : Json)
    (txt : String) (pg bb : Json) :
    ∀ fuel st p, backoffAfterCheckpoint p (attemptLoop oracle k txt pg bb fuel st).2 = true := by
  intro fuel
  induction fuel with
  | zero => intro st p; simp [attemptLoop, backoffAfterCheckpoint]
  | succ n ih =>
      intro st p
      simp only [attemptLoop]
      cases ho : oracle st.calls with
      | ok s =>
          dsimp only
          by_cases hb : st.batch + 1 ≥ 10
          · rw [if_pos hb]; simp [backoffAfterCheckpoint]
          · rw [if_neg hb]; simp [backoffAfterCheckpoint]
      | err msg =>
          dsimp only
          by_cases hr : isRateLimit msg = true
          · rw [if_pos hr]
            by_cases hn : n = 0
            · rw [if_pos hn]; simp [backoffAfterCheckpoint]
            · rw [if_neg hn]
              simp only [List.cons_append, List.nil_append]
              simp [backoffAfterCheckpoint, ih]
          · rw [if_neg hr]; simp [backoffAfterCheckpoint]

theorem segLoop_backoffAfterCheckpoint (oracle : Nat → GenOutcome) (total : Nat) :
    ∀ segs st p, backoffAfterCheckpoint p (segLoop oracle total segs st).2 = true := by
  intro segs
  induction segs with
  | nil => intro st p; simp [segLoop, backoffAfterCheckpoint]
  | cons kv rest ih =>
      intro st p
      obtain ⟨k, sd⟩ := kv
      simp only [segLoop]
      rw [backoffAfterCheckpoint_append, backoffAfterCheckpoint_append]
      rw [attemptLoop_backoffAfterCheckpoint]
      by_cases hp : (attemptLoop oracle k sd.text sd.page sd.bbox 5 st).1.processed < total
      · rw [if_pos hp]; simp [backoffAfterCheckpoint, ih]
      · rw [if_neg hp]; simp [backoffAfterCheckpoint, ih]

theorem attemptLoop_genCallCount (oracle : Nat → GenOutcome) (k : Json)
    (txt : String) (pg bb : Json) :
    ∀ fuel st, genCallCount (attemptLoop oracle k txt pg bb fuel st).2 ≤ fuel := by
  intro fuel
  induction fuel with
  | zero => intro st; simp [attemptLoop, genCallCount]
  | succ n ih =>
      intro st
      simp only [attemptLoop]
      cases ho : oracle st.calls with
      | ok s =>
          dsimp only
          by_cases hb : st.batch + 1 ≥ 10
          · rw [if_pos hb]; simp only [genCallCount]; omega
          · rw [if_neg hb]; simp only [genCallCount]; omega
      | err msg =>
          dsimp only
          by_cases hr : isRateLimit msg = true
          · rw [if_pos hr]
            by_cases hn : n = 0
            · rw [if_pos hn]; simp only [genCallCount]; omega
            · rw [if_neg hn]
              simp [genCallCount]
              have h := ih ⟨st.summaries, st.batch + 1, st.processed + 1, st.calls + 1⟩
              omega
          · rw [if_neg hr]; simp only [genCallCount]; omega

/-- When every outcome the oracle produces is a rate-limit error, the retry
budget is exhausted and the failure-marker record is stored. -/
theorem attemptLoop_exhausted (oracle : Nat → GenOutcome) (k : Json)
    (txt : String) (pg bb : Json)
    (hall : ∀ n, ∃ msg, oracle n = GenOutcome.err msg ∧ isRateLimit msg = true) :
    ∀ fuel st, 1 ≤ fuel →
      (attemptLoop oracle k txt pg bb fuel st).1.summaries
        = dinsert k (mkRecord "Rate limit error after 5 retries." txt pg bb) st.summaries := by
  intro fuel
  induction fuel with
  | zero => intro st h; exact absurd h (by omega)
  | succ n ih =>
      intro st _
      simp only [attemptLoop]
      rcases hall st.calls with ⟨msg, hmsg, hr⟩
      rw [hmsg]
      dsimp only
      rw [if_pos hr]
      by_cases hn : n = 0
      · rw [if_pos hn]
      · rw [if_neg hn]
        exact ih _ (by omega)

/- ### Filter helpers for the to-process map -/

theorem akeys_mem_iff {α β : Type} (j : α) (l : List (α × β)) :
    j ∈ akeys l ↔ ∃ sd, (j, sd) ∈ l := by
  simp only [akeys, List.mem_map]
  constructor
  · rintro ⟨⟨a, b⟩, hm, rfl⟩; exact ⟨b, hm⟩
  · rintro ⟨sd, hm⟩; exact ⟨(j, sd), hm, rfl⟩

theorem toProcess_key_not_in (M : SMap) (tsegs : List (Json × SegData)) (j : Json)
    (hj : j ∈ akeys (tsegs.filter (fun kv => !hasKey kv.1 M))) :
    hasKey j M = false := by
  rcases (akeys_mem_iff j _).1 hj with ⟨sd, hm⟩
  have := List.of_mem_filter hm
  simpa using this

theorem akeys_filter_iff (M : SMap) (tsegs : List (Json × SegData)) (j : Json)
    (hnot : hasKey j M = false) :
    j ∈ akeys (tsegs.filter (fun kv => !hasKey kv.1 M)) ↔ j ∈ akeys tsegs := by
  constructor
  · intro hj
    rcases (akeys_mem_iff j _).1 hj with ⟨sd, hm⟩
    exact (akeys_mem_iff j _).2 ⟨sd, List.mem_of_mem_filter hm⟩
  · intro hj
    rcases (akeys_mem_iff j _).1 hj with ⟨sd, hm⟩
    refine (akeys_mem_iff j _).2 ⟨sd, List.mem_filter.2 ⟨hm, ?_⟩⟩
    simp [hnot]

theorem filter_nil_of_all_done (M : SMap) (tsegs : List (Json × SegData))
    (hall : ∀ j ∈ akeys tsegs, hasKey j M = true) :
    tsegs.filter (fun kv => !hasKey kv.1 M) = [] := by
  rw [List.filter_eq_nil_iff]
  intro kv hm
  have : hasKey kv.1 M = true := hall kv.1 ((akeys_mem_iff _ _).2 ⟨kv.2, by simpa using hm⟩)
  simp [this]

/- ### Shared concrete instances for witnesses -/

/-- A generation oracle that always succeeds with the fixed summary "S". -/
def okOracle : Nat → GenOutcome := fun _ => GenOutcome.ok "S"

/-- A fixed address oracle (one run's `id()` values). -/
def addrA : Nat → Nat → Nat := fun _ _ => 1000

/-- A different address oracle (another run's `id()` values). -/
def addrB : Nat → Nat → Nat := fun _ _ => 2000

/-- A fixed stand-in for `json.dumps`. -/
def dumpsD : Json → String := fun _ => "D"

/- ### C1 -/

/-- C1 (amended): for a run whose extraction succeeds, the job keeps every
entry of the loaded map `M` unchanged and calls the generator only for
segment ids absent from `M`; and unless the fabricated-full_doc case applies
(empty `M`, dict data, zero extracted segments), the final map's keys are
exactly the loaded keys plus the extracted keys, and when every extracted id
is already in `M` the job returns `M` itself having called nothing. -/
theorem C1_resume_skips_done
    (oracle : Nat → GenOutcome) (addr : Nat → Nat → Nat) (dumps : Json → String)
    (M : SMap) (data : Json) (tsegs : List (Json × SegData)) (m : SMap) (tr : List Ev)
    (hex : extractSegments addr data = some tsegs)
    (hrun : generate_section_summaries oracle addr dumps M data = some (m, tr)) :
    (∀ k v, alookup k M = some v → alookup k m = some v)
    ∧ (∀ j, Ev.genCall j ∈ tr → hasKey j M = false)
    ∧ ((tsegs.isEmpty && data.isObj && M.isEmpty) = false →
        (∀ j, hasKey j m = (hasKey j M || decide (j ∈ akeys tsegs)))
        ∧ ((∀ j ∈ akeys tsegs, hasKey j M = true) → m = M ∧ tr = [])) := by
  simp only [generate_section_summaries, hex] at hrun
  by_cases hcond : (tsegs.isEmpty && data.isObj && M.isEmpty) = true
  · rw [if_pos hcond] at hrun
    have hM : M = [] := by
      simp only [Bool.and_eq_true, List.isEmpty_iff] at hcond
      exact hcond.2
    refine ⟨?_, ?_, ?_⟩
    · intro k v hkv
      rw [hM] at hkv
      simp [alookup] at hkv
    · intro j _
      rw [hM]
      rfl
    · intro hfalse
      rw [hcond] at hfalse
      exact absurd hfalse (by simp)
  · rw [if_neg hcond] at hrun
    have hcond' : (tsegs.isEmpty && data.isObj && M.isEmpty) = false :=
      Bool.eq_false_iff.mpr hcond
    by_cases hemp : (tsegs.filter (fun kv => !hasKey kv.1 M)).isEmpty = true
    · rw [if_pos hemp] at hrun
      simp only [Option.some.injEq, Prod.mk.injEq] at hrun
      obtain ⟨hm, htr⟩ := hrun
      subst hm; subst htr
      have hfil : tsegs.filter (fun kv => !hasKey kv.1 M) = [] :=
        List.isEmpty_iff.1 hemp
      refine ⟨fun k v h => h, ?_, ?_⟩
      · intro j hj; simp at hj
      · intro _
        constructor
        · intro j
          by_cases hk : hasKey j M = true
          · simp [hk]
          · have hk' : hasKey j M = false := Bool.eq_false_iff.mpr hk
            have hnot : j ∉ akeys tsegs := by
              intro hmem
              have := (akeys_filter_iff M tsegs j hk').2 hmem
              rw [hfil] at this
              simp [akeys] at this
            simp [hk', hnot]
        · intro _; exact ⟨rfl, rfl⟩
    · rw [if_neg hemp] at hrun
      simp only [Option.some.injEq, Prod.mk.injEq] at hrun
      obtain ⟨hm, htr⟩ := hrun
      refine ⟨?_, ?_, ?_⟩
      · intro k v hkv
        have hk : hasKey k M = true := by simp [hasKey, hkv]
        have hnot : k ∉ akeys (tsegs.filter (fun kv => !hasKey kv.1 M)) := by
          intro hmem
          rw [toProcess_key_not_in M tsegs k hmem] at hk
          simp at hk
        rw [← hm, segLoop_lookup_ne _ _ _ _ _ hnot]
        exact hkv
      · intro j hj
        rw [← htr] at hj
        rcases List.mem_append.1 hj with hj | hj
        · rcases segLoop_events _ _ _ _ _ hj with ⟨j2, hj2, hmem⟩ | ⟨mm, hmm, _⟩ | ⟨d, hd⟩ | hp
          · rw [Ev.genCall.injEq] at hj2
            subst hj2
            exact toProcess_key_not_in M tsegs j hmem
          · simp at hmm
          · simp at hd
          · simp at hp
        · simp at hj
      · intro _
        constructor
        · intro j
          rw [← hm, segLoop_hasKey]
          by_cases hk : hasKey j M = true
          · simp [hk]
          · have hk' : hasKey j M = false := Bool.eq_false_iff.mpr hk
            rw [hk']
            simp only [Bool.false_or]
            exact decide_eq_decide.mpr (akeys_filter_iff M tsegs j hk')
        · intro hall
          exact absurd (filter_nil_of_all_done M tsegs hall)
            (by intro hfil; rw [hfil] at hemp; simp at hemp)

/-- Loaded summary map used by the resumability witnesses. -/
def C1M : SMap := [(Json.str "a", Json.str "done")]

/-- A one-segment document whose only segment id is already summarized. -/
def C1data : Json :=
  Json.arr [Json.obj [("id", Json.str "a"), ("text", Json.str "long enough text content here")]]

/-- The extraction of `C1data`. -/
def C1segs : List (Json × SegData) :=
  [(Json.str "a", ⟨"long enough text content here", Json.num 1, Json.arr []⟩)]

/-- C1 witness: on a document whose single extracted id is already in the
loaded map, the theorem's hypotheses hold concretely and the run is a no-op
returning the loaded map with an empty trace. -/
theorem C1_witness :
    extractSegments addrA C1data = some C1segs
    ∧ generate_section_summaries okOracle addrA dumpsD C1M C1data = some (C1M, [])
    ∧ ((∀ k v, alookup k C1M = some v → alookup k C1M = some v)
       ∧ (∀ j, Ev.genCall j ∈ ([] : List Ev) → hasKey j C1M = false)
       ∧ ((C1segs.isEmpty && C1data.isObj && C1M.isEmpty) = false →
           (∀ j, hasKey j C1M = (hasKey j C1M || decide (j ∈ akeys C1segs)))
           ∧ ((∀ j ∈ akeys C1segs, hasKey j C1M = true) → C1M = C1M ∧ ([] : List Ev) = []))) :=
  ⟨by decide, by decide,
   C1_resume_skips_done okOracle addrA dumpsD C1M C1data C1segs C1M []
     (by decide) (by decide)⟩

/-- The summary map produced by rerunning on an empty dict with an empty
loaded map: the fabricated `full_doc` segment gets summarized. -/
def C1fullDocMap : SMap :=
  [(Json.str "full_doc", mkRecord "S" "D" (Json.num 1) (Json.arr []))]

/-- C1 counterexample: with a checkpoint file that loads to the empty map and
an analysis dict from which zero segments are extracted, every extracted id
is (vacuously) already in the map, yet the job does not return the loaded map
with no generation call: it fabricates `full_doc`, calls the generator for
it, and returns a non-empty map. -/
theorem C1_counterexample :
    extractSegments addrA (Json.obj []) = some []
    ∧ generate_section_summaries okOracle addrA dumpsD [] (Json.obj [])
        = some (C1fullDocMap,
            [Ev.genCall (Json.str "full_doc"), Ev.checkpoint C1fullDocMap])
    ∧ C1fullDocMap ≠ ([] : SMap)
    ∧ Ev.genCall (Json.str "full_doc")
        ∈ [Ev.genCall (Json.str "full_doc"), Ev.checkpoint C1fullDocMap] := by
  refine ⟨by decide, by decide, by decide, by decide⟩

/- ### C8 -/

/-- C8: the persisted summary map never shrinks: within a run that completes,
every checkpointed snapshot and the returned final map contain every key of
the loaded map. -/
theorem C8_monotonic_growth
    (oracle : Nat → GenOutcome) (addr : Nat → Nat → Nat) (dumps : Json → String)
    (M : SMap) (data : Json) (m : SMap) (tr : List Ev)
    (hrun : generate_section_summaries oracle addr dumps M data = some (m, tr)) :
    (∀ m', Ev.checkpoint m' ∈ tr → keyExt M m') ∧ keyExt M m := by
  cases hex : extractSegments addr data with
  | none => rw [generate_section_summaries, hex] at hrun; simp at hrun
  | some tsegs =>
      simp only [generate_section_summaries, hex] at hrun
      by_cases hcond : (tsegs.isEmpty && data.isObj && M.isEmpty) = true
      · have hM : M = [] := by
          simp only [Bool.and_eq_true, List.isEmpty_iff] at hcond
          exact hcond.2
        have hempty : ∀ mm : SMap, keyExt M mm := by
          intro mm j hj
          rw [hM] at hj
          simp [hasKey, alookup] at hj
        exact ⟨fun m' _ => hempty m', hempty m⟩
      · rw [if_neg hcond] at hrun
        by_cases hemp : (tsegs.filter (fun kv => !hasKey kv.1 M)).isEmpty = true
        · rw [if_pos hemp] at hrun
          simp only [Option.some.injEq, Prod.mk.injEq] at hrun
          obtain ⟨hm, htr⟩ := hrun
          subst hm; subst htr
          exact ⟨fun m' hm' => by simp at hm', keyExt_refl M⟩
        · rw [if_neg hemp] at hrun
          simp only [Option.some.injEq, Prod.mk.injEq] at hrun
          obtain ⟨hm, htr⟩ := hrun
          constructor
          · intro m' hm'
            rw [← htr] at hm'
            rcases List.mem_append.1 hm' with hm' | hm'
            · rcases segLoop_events _ _ _ _ _ hm' with ⟨j2, hj2, _⟩ | ⟨mm, hmm, hx⟩ |
                ⟨d, hd⟩ | hp
              · simp at hj2
              · rw [Ev.checkpoint.injEq] at hmm
                subst hmm
                exact hx
              · simp at hd
              · simp at hp
            · simp only [List.mem_singleton, Ev.checkpoint.injEq] at hm'
              subst hm'
              exact segLoop_extends oracle _ _ ⟨M, 0, 0, 0⟩
          · rw [← hm]
            exact segLoop_extends oracle _ _ ⟨M, 0, 0, 0⟩

/-- A two-segment document whose first id is already in `C1M`. -/
def C8data : Json :=
  Json.arr [Json.obj [("id", Json.str "a"), ("text", Json.str "first long segment text")],
            Json.obj [("id", Json.str "b"), ("text", Json.str "second long segment text")]]

/-- The final map of the C8 witness run. -/
def C8m : SMap :=
  [(Json.str "a", Json.str "done"),
   (Json.str "b", mkRecord "S" "second long segment text" (Json.num 1) (Json.arr []))]

/-- The trace of the C8 witness run. -/
def C8tr : List Ev :=
  [Ev.genCall (Json.str "b"), Ev.checkpoint C8m]

/-- C8 witness: a concrete resumed run, with its checkpoint and final map
retaining the loaded key. -/
theorem C8_witness :
    generate_section_summaries okOracle addrA dumpsD C1M C8data = some (C8m, C8tr)
    ∧ ((∀ m', Ev.checkpoint m' ∈ C8tr → keyExt C1M m') ∧ keyExt C1M C8m) :=
  ⟨by decide, C8_monotonic_growth okOracle addrA dumpsD C1M C8data C8m C8tr (by decide)⟩

/- ### C5 -/

/-- The rate-limit error text of Scenario C: classified as a rate limit and
parsed to a 5-second delay. -/
def rlMsgC5 : String := "Rate limit exceeded, please retry in 5 seconds"

/-- An oracle failing twice with the 5-second rate-limit error, then
succeeding. -/
def rlOracleC5 : Nat → GenOutcome :=
  fun n => if n < 2 then GenOutcome.err rlMsgC5 else GenOutcome.ok "A summary"

/-- An oracle that always fails with the rate-limit error. -/
def rlOracleAll : Nat → GenOutcome := fun _ => GenOutcome.err rlMsgC5

/-- The text of the single segment of the Scenario C document. -/
def C5text : String := "This segment is long enough to survive."

/-- A one-segment document for Scenario C. -/
def C5data : Json := Json.arr [Json.obj [("text", Json.str C5text)]]

/-- The map produced by the Scenario C run: exactly one recorded summary. -/
def C5m : SMap := [(Json.str "seg_0", mkRecord "A summary" C5text (Json.num 1) (Json.arr []))]

/-- The trace of the Scenario C run: three generation calls, a checkpoint
before each of the two 5-second backoff sleeps, and the final checkpoint. -/
def C5tr : List Ev :=
  [Ev.genCall (Json.str "seg_0"), Ev.checkpoint [], Ev.sleepBackoff 5,
   Ev.genCall (Json.str "seg_0"), Ev.checkpoint [], Ev.sleepBackoff 5,
   Ev.genCall (Json.str "seg_0"), Ev.checkpoint C5m]

/-- Every trace a completed run returns is either empty or the segment loop's
trace followed by the final checkpoint. -/
theorem generate_trace_shape
    (oracle : Nat → GenOutcome) (addr : Nat → Nat → Nat) (dumps : Json → String)
    (M : SMap) (data : Json) (m : SMap) (tr : List Ev)
    (hrun : generate_section_summaries oracle addr dumps M data = some (m, tr)) :
    tr = [] ∨ ∃ segs : List (Json × SegData),
      tr = (segLoop oracle segs.length segs ⟨M, 0, 0, 0⟩).2
            ++ [Ev.checkpoint (segLoop oracle segs.length segs ⟨M, 0, 0, 0⟩).1.summaries] := by
  cases hex : extractSegments addr data with
  | none => rw [generate_section_summaries, hex] at hrun; simp at hrun
  | some tsegs =>
      simp only [generate_section_summaries, hex] at hrun
      by_cases hcond : (tsegs.isEmpty && data.isObj && M.isEmpty) = true
      · rw [if_pos hcond] at hrun
        simp only [List.isEmpty_cons, Bool.false_eq_true, if_false,
          Option.some.injEq, Prod.mk.injEq] at hrun
        exact Or.inr ⟨_, hrun.2.symm⟩
      · rw [if_neg hcond] at hrun
        by_cases hemp : (tsegs.filter (fun kv => !hasKey kv.1 M)).isEmpty = true
        · rw [if_pos hemp] at hrun
          simp only [Option.some.injEq, Prod.mk.injEq] at hrun
          exact Or.inl hrun.2.symm
        · rw [if_neg hemp] at hrun
          simp only [Option.some.injEq, Prod.mk.injEq] at hrun
          exact Or.inr ⟨_, hrun.2.symm⟩

/-- C5: on rate-limit-classified failures the job checkpoints before every
backoff sleep; a segment is attempted at most five times; exhausting the
budget records the synthetic failure marker; and Scenario C (two 5-second
rate-limit failures, then success) yields one recorded summary, 10 seconds of
backoff sleep, and three generation calls (two retries). -/
theorem C5_rate_limit_retries :
    (∀ (oracle : Nat → GenOutcome) (addr : Nat → Nat → Nat) (dumps : Json → String)
        (M : SMap) (data : Json) (m : SMap) (tr : List Ev),
        generate_section_summaries oracle addr dumps M data = some (m, tr) →
        backoffAfterCheckpoint false tr = true)
    ∧ (∀ (oracle : Nat → GenOutcome) (k : Json) (txt : String) (pg bb : Json) (st : ASt),
        genCallCount (attemptLoop oracle k txt pg bb 5 st).2 ≤ 5)
    ∧ (∀ (oracle : Nat → GenOutcome) (k : Json) (txt : String) (pg bb : Json) (st : ASt),
        (∀ n, ∃ msg, oracle n = GenOutcome.err msg ∧ isRateLimit msg = true) →
        (attemptLoop oracle k txt pg bb 5 st).1.summaries
          = dinsert k (mkRecord "Rate limit error after 5 retries." txt pg bb) st.summaries)
    ∧ (generate_section_summaries rlOracleC5 addrA dumpsD [] C5data = some (C5m, C5tr)
       ∧ sleepSum C5tr = 10
       ∧ genCallCount C5tr = 3
       ∧ C5m = [(Json.str "seg_0", mkRecord "A summary" C5text (Json.num 1) (Json.arr []))]) := by
  refine ⟨?_, ?_, ?_, by decide, by decide, by decide, by decide⟩
  · intro oracle addr dumps M data m tr hrun
    rcases generate_trace_shape oracle addr dumps M data m tr hrun with h | ⟨segs, h⟩
    · rw [h]; rfl
    · rw [h, backoffAfterCheckpoint_append, segLoop_backoffAfterCheckpoint]
      simp [backoffAfterCheckpoint]
  · intro oracle k txt pg bb st
    exact attemptLoop_genCallCount oracle k txt pg bb 5 st
  · intro oracle k txt pg bb st hall
    exact attemptLoop_exhausted oracle k txt pg bb hall 5 st (by omega)

/-- C5 witness: the theorem's hypothesis-bearing conjuncts applied at the
Scenario C run and at the always-failing oracle. -/
theorem C5_witness :
    backoffAfterCheckpoint false C5tr = true
    ∧ (∀ n, ∃ msg, rlOracleAll n = GenOutcome.err msg ∧ isRateLimit msg = true)
    ∧ (attemptLoop rlOracleAll (Json.str "x") "txt" (Json.num 1) (Json.arr []) 5
          ⟨[], 0, 0, 0⟩).1.summaries
        = dinsert (Json.str "x")
            (mkRecord "Rate limit error after 5 retries." "txt" (Json.num 1) (Json.arr [])) [] :=
  ⟨C5_rate_limit_retries.1 rlOracleC5 addrA dumpsD [] C5data C5m C5tr (by decide),
   fun n => ⟨rlMsgC5, rfl, by decide⟩,
   C5_rate_limit_retries.2.2.1 rlOracleAll (Json.str "x") "txt" (Json.num 1) (Json.arr [])
     ⟨[], 0, 0, 0⟩ (fun n => ⟨rlMsgC5, rfl, by decide⟩)⟩

/- ### C10 -/

/-- C10: when the analysis JSON is a dict, extraction yields no qualifying
segments, and no prior summaries exist, the job fabricates the single
`full_doc` segment whose text is the first 1000 characters of the serialized
JSON (page 1, empty bbox), summarizes it, and returns a non-empty
one-entry map for it. -/
theorem C10_full_doc_fallback
    (oracle : Nat → GenOutcome) (addr : Nat → Nat → Nat) (dumps : Json → String)
    (data : Json) (m : SMap) (tr : List Ev)
    (hobj : data.isObj = true)
    (hex : extractSegments addr data = some [])
    (hrun : generate_section_summaries oracle addr dumps [] data = some (m, tr)) :
    (∃ s, m = [(Json.str "full_doc",
        mkRecord s (pyTake (dumps data) 1000) (Json.num 1) (Json.arr []))])
    ∧ m ≠ [] := by
  simp only [generate_section_summaries, hex] at hrun
  have hcond : (List.isEmpty ([] : List (Json × SegData)) && data.isObj
      && List.isEmpty ([] : SMap)) = true := by simp [hobj]
  rw [if_pos hcond] at hrun
  simp only [List.isEmpty_cons, Bool.false_eq_true, if_false,
    Option.some.injEq, Prod.mk.injEq] at hrun
  obtain ⟨hm, _⟩ := hrun
  simp only [segLoop] at hm
  rcases attemptLoop_records oracle (Json.str "full_doc") (pyTake (dumps data) 1000)
      (Json.num 1) (Json.arr []) 5 ⟨[], 0, 0, 0⟩ (by omega) with ⟨s, hs⟩
  have hm2 : m = dinsert (Json.str "full_doc")
      (mkRecord s (pyTake (dumps data) 1000) (Json.num 1) (Json.arr [])) [] := by
    rw [← hm]
    simpa [segLoop] using hs
  refine ⟨⟨s, by simpa [dinsert] using hm2⟩, ?_⟩
  rw [hm2]
  simp [dinsert]

/-- C10 witness: the empty dict with the always-succeeding oracle. -/
theorem C10_witness :
    Json.isObj (Json.obj []) = true
    ∧ extractSegments addrA (Json.obj []) = some []
    ∧ generate_section_summaries okOracle addrA dumpsD [] (Json.obj [])
        = some (C1fullDocMap, [Ev.genCall (Json.str "full_doc"), Ev.checkpoint C1fullDocMap])
    ∧ (∃ s, C1fullDocMap = [(Json.str "full_doc",
        mkRecord s (pyTake (dumpsD (Json.obj [])) 1000) (Json.num 1) (Json.arr []))])
    ∧ C1fullDocMap ≠ [] :=
  ⟨by decide, by decide, by decide,
   (C10_full_doc_fallback okOracle addrA dumpsD (Json.obj []) C1fullDocMap
      [Ev.genCall (Json.str "full_doc"), Ev.checkpoint C1fullDocMap]
      (by decide) (by decide) (by decide)).1,
   (C10_full_doc_fallback okOracle addrA dumpsD (Json.obj []) C1fullDocMap
      [Ev.genCall (Json.str "full_doc"), Ev.checkpoint C1fullDocMap]
      (by decide) (by decide) (by decide)).2⟩

/- ### C2 -/

/-- C2: analyzing the same bytes twice returns the same JSON for both calls,
the second call makes no service invocation (it is served from the caches),
and across the two calls the service is invoked at most once — regardless of
the initial cache state and of whether the durable writes succeed. -/
theorem C2_idempotent_cache
    (hash : List Nat → String) (svc : List Nat → Json) (p1 p2 : Bool)
    (b : List Nat) (st : AnalyzeSt) :
    (analyze_pdf hash svc p1 b st).1
      = (analyze_pdf hash svc p2 b (analyze_pdf hash svc p1 b st).2).1
    ∧ (analyze_pdf hash svc p2 b (analyze_pdf hash svc p1 b st).2).2.calls
        = (analyze_pdf hash svc p1 b st).2.calls
    ∧ (analyze_pdf hash svc p1 b st).2.calls ≤ st.calls + 1 := by
  unfold analyze_pdf
  cases hmem : alookup (hash b) st.mem with
  | some r =>
      simp [hmem]
  | none =>
      cases hdisk : alookup (hash b) st.disk with
      | some fe =>
          cases fe with
          | good r => simp [hmem, hdisk, alookup_dinsert_self]
          | corrupt => simp [hmem, hdisk, alookup_dinsert_self]
      | none => simp [hmem, hdisk, alookup_dinsert_self]

/- ### C4 -/

/-- C4: the retry-delay parser maps "retry after 20s" to 20 seconds, "wait 2
minutes" to 120 seconds, and any text matching neither the seconds nor the
minutes pattern to the 30-second default. -/
theorem C4_retry_delay_parsing :
    extract_retry_delay "retry after 20s" = 20
    ∧ extract_retry_delay "wait 2 minutes" = 120
    ∧ (∀ msg, secondsSearch msg = none → minutesSearch msg = none →
        extract_retry_delay msg = 30) := by
  refine ⟨by decide, by decide, ?_⟩
  intro msg h1 h2
  simp [extract_retry_delay, h1, h2]

/-- C4 witness: a concrete unrecognized error text falls back to 30. -/
theorem C4_witness :
    secondsSearch "quota exhausted, try later" = none
    ∧ minutesSearch "quota exhausted, try later" = none
    ∧ extract_retry_delay "quota exhausted, try later" = 30 :=
  ⟨by decide, by decide, C4_retry_delay_parsing.2.2 _ (by decide) (by decide)⟩

/- ### Extraction lemmas for the length filter -/

theorem hasKey_dinsert_self {α β : Type} [DecidableEq α] (k : α) (v : β)
    (l : List (α × β)) : hasKey k (dinsert k v l) = true := by
  rw [hasKey_dinsert]; simp

theorem extractListAux_all_long :
    ∀ (items : List Json) (i : Nat) (acc segs : List (Json × SegData)),
      (∀ kv ∈ acc, 10 < kv.2.text.length) →
      extractListAux i items acc = some segs →
      ∀ kv ∈ segs, 10 < kv.2.text.length := by
  intro items
  induction items with
  | nil =>
      intro i acc segs hacc h
      simp only [extractListAux, Option.some.injEq] at h
      subst h; exact hacc
  | cons item rest ih =>
      intro i acc segs hacc h
      cases item with
      | obj fs =>
          simp only [extractListAux] at h
          cases htxt : alookup "text" fs with
          | none => rw [htxt] at h; exact ih _ _ _ hacc h
          | some tv =>
              cases tv with
              | str s =>
                  rw [htxt] at h
                  dsimp only at h
                  by_cases hlen : (pyStrip s).length > 10
                  · rw [if_pos hlen] at h
                    refine ih _ _ _ ?_ h
                    intro kv hkv
                    rcases mem_dinsert hkv with hkv | hkv
                    · subst hkv; exact hlen
                    · exact hacc _ hkv
                  · rw [if_neg hlen] at h
                    exact ih _ _ _ hacc h
              | null => rw [htxt] at h; simp at h
              | bool b => rw [htxt] at h; simp at h
              | num n => rw [htxt] at h; simp at h
              | arr xs => rw [htxt] at h; simp at h
              | obj gs => rw [htxt] at h; simp at h
      | null => simp only [extractListAux] at h; exact ih _ _ _ hacc h
      | bool b => simp only [extractListAux] at h; exact ih _ _ _ hacc h
      | num n => simp only [extractListAux] at h; exact ih _ _ _ hacc h
      | str s => simp only [extractListAux] at h; exact ih _ _ _ hacc h
      | arr xs => simp only [extractListAux] at h; exact ih _ _ _ hacc h

theorem extractTextsAux_all_long (addr : Nat → Nat → Nat) (pn : Nat) :
    ∀ (blocks : List Json) (i : Nat) (acc segs : List (Json × SegData)),
      (∀ kv ∈ acc, 10 < kv.2.text.length) →
      extractTextsAux addr pn i blocks acc = some segs →
      ∀ kv ∈ segs, 10 < kv.2.text.length := by
  intro blocks
  induction blocks with
  | nil =>
      intro i acc segs hacc h
      simp only [extractTextsAux, Option.some.injEq] at h
      subst h; exact hacc
  | cons b rest ih =>
      intro i acc segs hacc h
      cases b with
      | obj fs =>
          simp only [extractTextsAux] at h
          cases htxt : alookup "text" fs with
          | none => rw [htxt] at h; exact ih _ _ _ hacc h
          | some tv =>
              cases tv with
              | str s =>
                  rw [htxt] at h
                  dsimp only at h
                  by_cases hlen : (pyStrip s).length > 10
                  · rw [if_pos hlen] at h
                    refine ih _ _ _ ?_ h
                    intro kv hkv
                    rcases mem_dinsert hkv with hkv | hkv
                    · subst hkv; exact hlen
                    · exact hacc _ hkv
                  · rw [if_neg hlen] at h
                    exact ih _ _ _ hacc h
              | null => rw [htxt] at h; simp at h
              | bool x => rw [htxt] at h; simp at h
              | num x => rw [htxt] at h; simp at h
              | arr x => rw [htxt] at h; simp at h
              | obj x => rw [htxt] at h; simp at h
      | null => simp only [extractTextsAux] at h; exact ih _ _ _ hacc h
      | bool x => simp only [extractTextsAux] at h; exact ih _ _ _ hacc h
      | num x => simp only [extractTextsAux] at h; exact ih _ _ _ hacc h
      | str x => simp only [extractTextsAux] at h; exact ih _ _ _ hacc h
      | arr x => simp only [extractTextsAux] at h; exact ih _ _ _ hacc h

theorem extractItemsAux_all_long (addr : Nat → Nat → Nat) (pn : Nat) :
    ∀ (its : List Json) (i : Nat) (acc segs : List (Json × SegData)),
      (∀ kv ∈ acc, 10 < kv.2.text.length) →
      extractItemsAux addr pn i its acc = some segs →
      ∀ kv ∈ segs, 10 < kv.2.text.length := by
  intro its
  induction its with
  | nil =>
      intro i acc segs hacc h
      simp only [extractItemsAux, Option.some.injEq] at h
      subst h; exact hacc
  | cons it rest ih =>
      intro i acc segs hacc h
      cases it with
      | obj fs =>
          simp only [extractItemsAux] at h
          by_cases hty : (alookup "type" fs).getD Json.null = Json.str "text"
          · rw [if_pos hty] at h
            cases hc : (alookup "content" fs).getD (Json.str "") with
            | str s =>
                rw [hc] at h
                dsimp only at h
                by_cases hlen : (pyStrip s).length > 10
                · rw [if_pos hlen] at h
                  refine ih _ _ _ ?_ h
                  intro kv hkv
                  rcases mem_dinsert hkv with hkv | hkv
                  · subst hkv; exact hlen
                  · exact hacc _ hkv
                · rw [if_neg hlen] at h
                  exact ih _ _ _ hacc h
            | null => rw [hc] at h; simp at h
            | bool x => rw [hc] at h; simp at h
            | num x => rw [hc] at h; simp at h
            | arr x => rw [hc] at h; simp at h
            | obj x => rw [hc] at h; simp at h
          · rw [if_neg hty] at h
            exact ih _ _ _ hacc h
      | null => simp only [extractItemsAux] at h; exact ih _ _ _ hacc h
      | bool x => simp only [extractItemsAux] at h; exact ih _ _ _ hacc h
      | num x => simp only [extractItemsAux] at h; exact ih _ _ _ hacc h
      | str x => simp only [extractItemsAux] at h; exact ih _ _ _ hacc h
      | arr x => simp only [extractItemsAux] at h; exact ih _ _ _ hacc h

theorem extractPagesAux_all_long (addr : Nat → Nat → Nat) :
    ∀ (pages : List Json) (i : Nat) (acc segs : List (Json × SegData)),
      (∀ kv ∈ acc, 10 < kv.2.text.length) →
      extractPagesAux addr i pages acc = some segs →
      ∀ kv ∈ segs, 10 < kv.2.text.length := by
  intro pages
  induction pages with
  | nil =>
      intro i acc segs hacc h
      simp only [extractPagesAux, Option.some.injEq] at h
      subst h; exact hacc
  | cons p rest ih =>
      intro i acc segs hacc h
      cases p with
      | obj fs =>
          simp only [extractPagesAux] at h
          cases htex : alookup "texts" fs with
          | some tv =>
              cases tv with
              | arr blocks =>
                  rw [htex] at h
                  dsimp only at h
                  cases htx : extractTextsAux addr (i + 1) 0 blocks acc with
                  | none => rw [htx] at h; simp at h
                  | some acc' =>
                      rw [htx] at h
                      exact ih _ _ _ (extractTextsAux_all_long addr (i + 1) blocks 0 acc acc' hacc htx) h
              | null =>
                  rw [htex] at h; dsimp only at h
                  cases hit : alookup "items" fs with
                  | some iv =>
                      cases iv with
                      | arr its =>
                          rw [hit] at h
                          dsimp only at h
                          cases hi2 : extractItemsAux addr (i + 1) 0 its acc with
                          | none => rw [hi2] at h; simp at h
                          | some acc' =>
                              rw [hi2] at h
                              exact ih _ _ _ (extractItemsAux_all_long addr (i + 1) its 0 acc acc' hacc hi2) h
                      | null => rw [hit] at h; exact ih _ _ _ hacc h
                      | bool x => rw [hit] at h; exact ih _ _ _ hacc h
                      | num x => rw [hit] at h; exact ih _ _ _ hacc h
                      | str x => rw [hit] at h; exact ih _ _ _ hacc h
                      | obj x => rw [hit] at h; exact ih _ _ _ hacc h
                  | none => rw [hit] at h; exact ih _ _ _ hacc h
              | bool x =>
                  rw [htex] at h; dsimp only at h
                  cases hit : alookup "items" fs with
                  | some iv =>
                      cases iv with
                      | arr its =>
                          rw [hit] at h
                          dsimp only at h
                          cases hi2 : extractItemsAux addr (i + 1) 0 its acc with
                          | none => rw [hi2] at h; simp at h
                          | some acc' =>
                              rw [hi2] at h
                              exact ih _ _ _ (extractItemsAux_all_long addr (i + 1) its 0 acc acc' hacc hi2) h
                      | null => rw [hit] at h; exact ih _ _ _ hacc h
                      | bool y => rw [hit] at h; exact ih _ _ _ hacc h
                      | num y => rw [hit] at h; exact ih _ _ _ hacc h
                      | str y => rw [hit] at h; exact ih _ _ _ hacc h
                      | obj y => rw [hit] at h; exact ih _ _ _ hacc h
                  | none => rw [hit] at h; exact ih _ _ _ hacc h
              | num x =>
                  rw [htex] at h; dsimp only at h
                  cases hit : alookup "items" fs with
                  | some iv =>
                      cases iv with
                      | arr its =>
                          rw [hit] at h
                          dsimp only at h
                          cases hi2 : extractItemsAux addr (i + 1) 0 its acc with
                          | none => rw [hi2] at h; simp at h
                          | some acc' =>
                              rw [hi2] at h
                              exact ih _ _ _ (extractItemsAux_all_long addr (i + 1) its 0 acc acc' hacc hi2) h
                      | null => rw [hit] at h; exact ih _ _ _ hacc h
                      | bool y => rw [hit] at h; exact ih _ _ _ hacc h
                      | num y => rw [hit] at h; exact ih _ _ _ hacc h
                      | str y => rw [hit] at h; exact ih _ _ _ hacc h
                      | obj y => rw [hit] at h; exact ih _ _ _ hacc h
                  | none => rw [hit] at h; exact ih _ _ _ hacc h
              | str x =>
                  rw [htex] at h; dsimp only at h
                  cases hit : alookup "items" fs with
                  | some iv =>
                      cases iv with
                      | arr its =>
                          rw [hit] at h
                          dsimp only at h
                          cases hi2 : extractItemsAux addr (i + 1) 0 its acc with
                          | none => rw [hi2] at h; simp at h
                          | some acc' =>
                              rw [hi2] at h
                              exact ih _ _ _ (extractItemsAux_all_long addr (i + 1) its 0 acc acc' hacc hi2) h
                      | null => rw [hit] at h; exact ih _ _ _ hacc h
                      | bool y => rw [hit] at h; exact ih _ _ _ hacc h
                      | num y => rw [hit] at h; exact ih _ _ _ hacc h
                      | str y => rw [hit] at h; exact ih _ _ _ hacc h
                      | obj y => rw [hit] at h; exact ih _ _ _ hacc h
                  | none => rw [hit] at h; exact ih _ _ _ hacc h
              | obj x =>
                  rw [htex] at h; dsimp only at h
                  cases hit : alookup "items" fs with
                  | some iv =>
                      cases iv with
                      | arr its =>
                          rw [hit] at h
                          dsimp only at h
                          cases hi2 : extractItemsAux addr (i + 1) 0 its acc with
                          | none => rw [hi2] at h; simp at h
                          | some acc' =>
                              rw [hi2] at h
                              exact ih _ _ _ (extractItemsAux_all_long addr (i + 1) its 0 acc acc' hacc hi2) h
                      | null => rw [hit] at h; exact ih _ _ _ hacc h
                      | bool y => rw [hit] at h; exact ih _ _ _ hacc h
                      | num y => rw [hit] at h; exact ih _ _ _ hacc h
                      | str y => rw [hit] at h; exact ih _ _ _ hacc h
                      | obj y => rw [hit] at h; exact ih _ _ _ hacc h
                  | none => rw [hit] at h; exact ih _ _ _ hacc h
          | none =>
              rw [htex] at h; dsimp only at h
              cases hit : alookup "items" fs with
              | some iv =>
                  cases iv with
                  | arr its =>
                      rw [hit] at h
                      dsimp only at h
                      cases hi2 : extractItemsAux addr (i + 1) 0 its acc with
                      | none => rw [hi2] at h; simp at h
                      | some acc' =>
                          rw [hi2] at h
                          exact ih _ _ _ (extractItemsAux_all_long addr (i + 1) its 0 acc acc' hacc hi2) h
                  | null => rw [hit] at h; exact ih _ _ _ hacc h
                  | bool y => rw [hit] at h; exact ih _ _ _ hacc h
                  | num y => rw [hit] at h; exact ih _ _ _ hacc h
                  | str y => rw [hit] at h; exact ih _ _ _ hacc h
                  | obj y => rw [hit] at h; exact ih _ _ _ hacc h
              | none => rw [hit] at h; exact ih _ _ _ hacc h
      | arr xs =>
          simp only [extractPagesAux] at h
          by_cases hx : (Json.str "texts" ∈ xs || Json.str "items" ∈ xs) = true
          · rw [if_pos hx] at h; simp at h
          · rw [if_neg hx] at h; exact ih _ _ _ hacc h
      | str s =>
          simp only [extractPagesAux] at h
          by_cases hx : (containsL "texts".data s.data || containsL "items".data s.data) = true
          · rw [if_pos hx] at h; simp at h
          · rw [if_neg hx] at h; exact ih _ _ _ hacc h
      | null => simp only [extractPagesAux] at h; simp at h
      | bool x => simp only [extractPagesAux] at h; simp at h
      | num x => simp only [extractPagesAux] at h; simp at h

/-- Every segment a successful extraction returns has stripped text strictly
longer than 10 characters. -/
theorem extractSegments_all_long (addr : Nat → Nat → Nat) (data : Json)
    (segs : List (Json × SegData)) (h : extractSegments addr data = some segs) :
    ∀ kv ∈ segs, 10 < kv.2.text.length := by
  cases data with
  | arr items =>
      simp only [extractSegments] at h
      exact extractListAux_all_long items 0 [] segs (by simp) h
  | obj fs =>
      simp only [extractSegments] at h
      cases hp : alookup "pages" fs with
      | some pv =>
          cases pv with
          | arr pages =>
              rw [hp] at h
              exact extractPagesAux_all_long addr pages 0 [] segs (by simp) h
          | null => rw [hp] at h; simp only [Option.some.injEq] at h; subst h; simp
          | bool x => rw [hp] at h; simp only [Option.some.injEq] at h; subst h; simp
          | num x => rw [hp] at h; simp only [Option.some.injEq] at h; subst h; simp
          | str x => rw [hp] at h; simp only [Option.some.injEq] at h; subst h; simp
          | obj x => rw [hp] at h; simp only [Option.some.injEq] at h; subst h; simp
      | none => rw [hp] at h; simp only [Option.some.injEq] at h; subst h; simp
  | null => simp only [extractSegments, Option.some.injEq] at h; subst h; simp
  | bool x => simp only [extractSegments, Option.some.injEq] at h; subst h; simp
  | num x => simp only [extractSegments, Option.some.injEq] at h; subst h; simp
  | str x => simp only [extractSegments, Option.some.injEq] at h; subst h; simp

theorem hasKey_dinsert_mono {α β : Type} [DecidableEq α] (k' : α) (v : β)
    {k : α} {l : List (α × β)} (h : hasKey k l = true) :
    hasKey k (dinsert k' v l) = true := by
  rw [hasKey_dinsert]; simp [h]

theorem extractListAux_hasKey_mono (k : Json) :
    ∀ (items : List Json) (i : Nat) (acc segs : List (Json × SegData)),
      hasKey k acc = true →
      extractListAux i items acc = some segs →
      hasKey k segs = true := by
  intro items
  induction items with
  | nil =>
      intro i acc segs hk h
      simp only [extractListAux, Option.some.injEq] at h
      subst h; exact hk
  | cons item rest ih =>
      intro i acc segs hk h
      cases item with
      | obj fs =>
          simp only [extractListAux] at h
          cases htxt : alookup "text" fs with
          | none => rw [htxt] at h; exact ih _ _ _ hk h
          | some tv =>
              cases tv with
              | str s =>
                  rw [htxt] at h
                  dsimp only at h
                  by_cases hlen : (pyStrip s).length > 10
                  · rw [if_pos hlen] at h
                    exact ih _ _ _ (hasKey_dinsert_mono _ _ hk) h
                  · rw [if_neg hlen] at h
                    exact ih _ _ _ hk h
              | null => rw [htxt] at h; simp at h
              | bool b => rw [htxt] at h; simp at h
              | num n => rw [htxt] at h; simp at h
              | arr xs => rw [htxt] at h; simp at h
              | obj gs => rw [htxt] at h; simp at h
      | null => simp only [extractListAux] at h; exact ih _ _ _ hk h
      | bool b => simp only [extractListAux] at h; exact ih _ _ _ hk h
      | num n => simp only [extractListAux] at h; exact ih _ _ _ hk h
      | str s => simp only [extractListAux] at h; exact ih _ _ _ hk h
      | arr xs => simp only [extractListAux] at h; exact ih _ _ _ hk h

theorem extractTextsAux_hasKey_mono (addr : Nat → Nat → Nat) (pn : Nat) (k : Json) :
    ∀ (blocks : List Json) (i : Nat) (acc segs : List (Json × SegData)),
      hasKey k acc = true →
      extractTextsAux addr pn i blocks acc = some segs →
      hasKey k segs = true := by
  intro blocks
  induction blocks with
  | nil =>
      intro i acc segs hk h
      simp only [extractTextsAux, Option.some.injEq] at h
      subst h; exact hk
  | cons b rest ih =>
      intro i acc segs hk h
      cases b with
      | obj fs =>
          simp only [extractTextsAux] at h
          cases htxt : alookup "text" fs with
          | none => rw [htxt] at h; exact ih _ _ _ hk h
          | some tv =>
              cases tv with
              | str s =>
                  rw [htxt] at h
                  dsimp only at h
                  by_cases hlen : (pyStrip s).length > 10
                  · rw [if_pos hlen] at h
                    exact ih _ _ _ (hasKey_dinsert_mono _ _ hk) h
                  · rw [if_neg hlen] at h
                    exact ih _ _ _ hk h
              | null => rw [htxt] at h; simp at h
              | bool x => rw [htxt] at h; simp at h
              | num x => rw [htxt] at h; simp at h
              | arr x => rw [htxt] at h; simp at h
              | obj x => rw [htxt] at h; simp at h
      | null => simp only [extractTextsAux] at h; exact ih _ _ _ hk h
      | bool x => simp only [extractTextsAux] at h; exact ih _ _ _ hk h
      | num x => simp only [extractTextsAux] at h; exact ih _ _ _ hk h
      | str x => simp only [extractTextsAux] at h; exact ih _ _ _ hk h
      | arr x => simp only [extractTextsAux] at h; exact ih _ _ _ hk h

theorem extractItemsAux_hasKey_mono (addr : Nat → Nat → Nat) (pn : Nat) (k : Json) :
    ∀ (its : List Json) (i : Nat) (acc segs : List (Json × SegData)),
      hasKey k acc = true →
      extractItemsAux addr pn i its acc = some segs →
      hasKey k segs = true := by
  intro its
  induction its with
  | nil =>
      intro i acc segs hk h
      simp only [extractItemsAux, Option.some.injEq] at h
      subst h; exact hk
  | cons it rest ih =>
      intro i acc segs hk h
      cases it with
      | obj fs =>
          simp only [extractItemsAux] at h
          by_cases hty : (alookup "type" fs).getD Json.null = Json.str "text"
          · rw [if_pos hty] at h
            cases hc : (alookup "content" fs).getD (Json.str "") with
            | str s =>
                rw [hc] at h
                dsimp only at h
                by_cases hlen : (pyStrip s).length > 10
                · rw [if_pos hlen] at h
                  exact ih _ _ _ (hasKey_dinsert_mono _ _ hk) h
                · rw [if_neg hlen] at h
                  exact ih _ _ _ hk h
            | null => rw [hc] at h; simp at h
            | bool x => rw [hc] at h; simp at h
            | num x => rw [hc] at h; simp at h
            | arr x => rw [hc] at h; simp at h
            | obj x => rw [hc] at h; simp at h
          · rw [if_neg hty] at h
            exact ih _ _ _ hk h
      | null => simp only [extractItemsAux] at h; exact ih _ _ _ hk h
      | bool x => simp only [extractItemsAux] at h; exact ih _ _ _ hk h
      | num x => simp only [extractItemsAux] at h; exact ih _ _ _ hk h
      | str x => simp only [extractItemsAux] at h; exact ih _ _ _ hk h
      | arr x => simp only [extractItemsAux] at h; exact ih _ _ _ hk h

theorem extractPagesAux_hasKey_mono (addr : Nat → Nat → Nat) (k : Json) :
    ∀ (pages : List Json) (i : Nat) (acc segs : List (Json × SegData)),
      hasKey k acc = true →
      extractPagesAux addr i pages acc = some segs →
      hasKey k segs = true := by
  intro pages
  induction pages with
  | nil =>
      intro i acc segs hk h
      simp only [extractPagesAux, Option.some.injEq] at h
      subst h; exact hk
  | cons p rest ih =>
      intro i acc segs hk h
      cases p with
      | obj fs =>
          simp only [extractPagesAux] at h
          cases htex : alookup "texts" fs with
          | some tv =>
              cases tv with
              | arr blocks =>
                  rw [htex] at h
                  dsimp only at h
                  cases htx : extractTextsAux addr (i + 1) 0 blocks acc with
                  | none => rw [htx] at h; simp at h
                  | some acc' =>
                      rw [htx] at h
                      exact ih _ _ _ (extractTextsAux_hasKey_mono addr (i + 1) k blocks 0 acc acc' hk htx) h
              | null =>
                  rw [htex] at h; dsimp only at h
                  cases hit : alookup "items" fs with
                  | some iv =>
                      cases iv with
                      | arr its =>
                          rw [hit] at h
                          dsimp only at h
                          cases hi2 : extractItemsAux addr (i + 1) 0 its acc with
                          | none => rw [hi2] at h; simp at h
                          | some acc' =>
                              rw [hi2] at h
                              exact ih _ _ _ (extractItemsAux_hasKey_mono addr (i + 1) k its 0 acc acc' hk hi2) h
                      | null => rw [hit] at h; exact ih _ _ _ hk h
                      | bool x => rw [hit] at h; exact ih _ _ _ hk h
                      | num x => rw [hit] at h; exact ih _ _ _ hk h
                      | str x => rw [hit] at h; exact ih _ _ _ hk h
                      | obj x => rw [hit] at h; exact ih _ _ _ hk h
                  | none => rw [hit] at h; exact ih _ _ _ hk h
              | bool x =>
                  rw [htex] at h; dsimp only at h
                  cases hit : alookup "items" fs with
                  | some iv =>
                      cases iv with
                      | arr its =>
                          rw [hit] at h
                          dsimp only at h
                          cases hi2 : extractItemsAux addr (i + 1) 0 its acc with
                          | none => rw [hi2] at h; simp at h
                          | some acc' =>
                              rw [hi2] at h
                              exact ih _ _ _ (extractItemsAux_hasKey_mono addr (i + 1) k its 0 acc acc' hk hi2) h
                      | null => rw [hit] at h; exact ih _ _ _ hk h
                      | bool y => rw [hit] at h; exact ih _ _ _ hk h
                      | num y => rw [hit] at h; exact ih _ _ _ hk h
                      | str y => rw [hit] at h; exact ih _ _ _ hk h
                      | obj y => rw [hit] at h; exact ih _ _ _ hk h
                  | none => rw [hit] at h; exact ih _ _ _ hk h
              | num x =>
                  rw [htex] at h; dsimp only at h
                  cases hit : alookup "items" fs with
                  | some iv =>
                      cases iv with
                      | arr its =>
                          rw [hit] at h
                          dsimp only at h
                          cases hi2 : extractItemsAux addr (i + 1) 0 its acc with
                          | none => rw [hi2] at h; simp at h
                          | some acc' =>
                              rw [hi2] at h
                              exact ih _ _ _ (extractItemsAux_hasKey_mono addr (i + 1) k its 0 acc acc' hk hi2) h
                      | null => rw [hit] at h; exact ih _ _ _ hk h
                      | bool y => rw [hit] at h; exact ih _ _ _ hk h
                      | num y => rw [hit] at h; exact ih _ _ _ hk h
                      | str y => rw [hit] at h; exact ih _ _ _ hk h
                      | obj y => rw [hit] at h; exact ih _ _ _ hk h
                  | none => rw [hit] at h; exact ih _ _ _ hk h
              | str x =>
                  rw [htex] at h; dsimp only at h
                  cases hit : alookup "items" fs with
                  | some iv =>
                      cases iv with
                      | arr its =>
                          rw [hit] at h
                          dsimp only at h
                          cases hi2 : extractItemsAux addr (i + 1) 0 its acc with
                          | none => rw [hi2] at h; simp at h
                          | some acc' =>
                              rw [hi2] at h
                              exact ih _ _ _ (extractItemsAux_hasKey_mono addr (i + 1) k its 0 acc acc' hk hi2) h
                      | null => rw [hit] at h; exact ih _ _ _ hk h
                      | bool y => rw [hit] at h; exact ih _ _ _ hk h
                      | num y => rw [hit] at h; exact ih _ _ _ hk h
                      | str y => rw [hit] at h; exact ih _ _ _ hk h
                      | obj y => rw [hit] at h; exact ih _ _ _ hk h
                  | none => rw [hit] at h; exact ih _ _ _ hk h
              | obj x =>
                  rw [htex] at h; dsimp only at h
                  cases hit : alookup "items" fs with
                  | some iv =>
                      cases iv with
                      | arr its =>
                          rw [hit] at h
                          dsimp only at h
                          cases hi2 : extractItemsAux addr (i + 1) 0 its acc with
                          | none => rw [hi2] at h; simp at h
                          | some acc' =>
                              rw [hi2] at h
                              exact ih _ _ _ (extractItemsAux_hasKey_mono addr (i + 1) k its 0 acc acc' hk hi2) h
                      | null => rw [hit] at h; exact ih _ _ _ hk h
                      | bool y => rw [hit] at h; exact ih _ _ _ hk h
                      | num y => rw [hit] at h; exact ih _ _ _ hk h
                      | str y => rw [hit] at h; exact ih _ _ _ hk h
                      | obj y => rw [hit] at h; exact ih _ _ _ hk h
                  | none => rw [hit] at h; exact ih _ _ _ hk h
          | none =>
              rw [htex] at h; dsimp only at h
              cases hit : alookup "items" fs with
              | some iv =>
                  cases iv with
                  | arr its =>
                      rw [hit] at h
                      dsimp only at h
                      cases hi2 : extractItemsAux addr (i + 1) 0 its acc with
                      | none => rw [hi2] at h; simp at h
                      | some acc' =>
                          rw [hi2] at h
                          exact ih _ _ _ (extractItemsAux_hasKey_mono addr (i + 1) k its 0 acc acc' hk hi2) h
                  | null => rw [hit] at h; exact ih _ _ _ hk h
                  | bool y => rw [hit] at h; exact ih _ _ _ hk h
                  | num y => rw [hit] at h; exact ih _ _ _ hk h
                  | str y => rw [hit] at h; exact ih _ _ _ hk h
                  | obj y => rw [hit] at h; exact ih _ _ _ hk h
              | none => rw [hit] at h; exact ih _ _ _ hk h
      | arr xs =>
          simp only [extractPagesAux] at h
          by_cases hx : (Json.str "texts" ∈ xs || Json.str "items" ∈ xs) = true
          · rw [if_pos hx] at h; simp at h
          · rw [if_neg hx] at h; exact ih _ _ _ hk h
      | str s =>
          simp only [extractPagesAux] at h
          by_cases hx : (containsL "texts".data s.data || containsL "items".data s.data) = true
          · rw [if_pos hx] at h; simp at h
          · rw [if_neg hx] at h; exact ih _ _ _ hk h
      | null => simp only [extractPagesAux] at h; simp at h
      | bool x => simp only [extractPagesAux] at h; simp at h
      | num x => simp only [extractPagesAux] at h; simp at h


theorem extractListAux_includes :
    ∀ (items : List Json) (i0 : Nat) (acc segs : List (Json × SegData)),
      extractListAux i0 items acc = some segs →
      ∀ (j : Nat) (fs : List (String × Json)) (s : String),
        items[j]? = some (Json.obj fs) →
        alookup "text" fs = some (Json.str s) →
        10 < (pyStrip s).length →
        hasKey ((alookup "id" fs).getD (Json.str ("seg_" ++ toString (i0 + j)))) segs = true := by
  intro items
  induction items with
  | nil => intro i0 acc segs h j fs s hj htxt hlen; simp at hj
  | cons item rest ih =>
      intro i0 acc segs h j fs s hj htxt hlen
      cases j with
      | zero =>
          rw [List.getElem?_cons_zero] at hj
          injection hj with hj
          subst hj
          simp only [extractListAux, htxt] at h
          rw [if_pos hlen] at h
          rw [Nat.add_zero]
          exact extractListAux_hasKey_mono _ rest (i0 + 1) _ segs
            (hasKey_dinsert_self _ _ _) h
      | succ j' =>
          rw [List.getElem?_cons_succ] at hj
          have harith : i0 + (j' + 1) = (i0 + 1) + j' := by omega
          rw [harith]
          cases item with
          | obj gfs =>
              simp only [extractListAux] at h
              cases hg : alookup "text" gfs with
              | none => rw [hg] at h; exact ih (i0 + 1) _ segs h j' fs s hj htxt hlen
              | some tv =>
                  cases tv with
                  | str t =>
                      rw [hg] at h
                      dsimp only at h
                      by_cases hl : (pyStrip t).length > 10
                      · rw [if_pos hl] at h
                        exact ih (i0 + 1) _ segs h j' fs s hj htxt hlen
                      · rw [if_neg hl] at h
                        exact ih (i0 + 1) _ segs h j' fs s hj htxt hlen
                  | null => rw [hg] at h; simp at h
                  | bool x => rw [hg] at h; simp at h
                  | num x => rw [hg] at h; simp at h
                  | arr x => rw [hg] at h; simp at h
                  | obj x => rw [hg] at h; simp at h
          | null =>
              simp only [extractListAux] at h
              exact ih (i0 + 1) _ segs h j' fs s hj htxt hlen
          | bool x =>
              simp only [extractListAux] at h
              exact ih (i0 + 1) _ segs h j' fs s hj htxt hlen
          | num x =>
              simp only [extractListAux] at h
              exact ih (i0 + 1) _ segs h j' fs s hj htxt hlen
          | str x =>
              simp only [extractListAux] at h
              exact ih (i0 + 1) _ segs h j' fs s hj htxt hlen
          | arr x =>
              simp only [extractListAux] at h
              exact ih (i0 + 1) _ segs h j' fs s hj htxt hlen

theorem extractTextsAux_includes (addr : Nat → Nat → Nat) (pn : Nat) :
    ∀ (items : List Json) (i0 : Nat) (acc segs : List (Json × SegData)),
      extractTextsAux addr pn i0 items acc = some segs →
      ∀ (j : Nat) (fs : List (String × Json)) (s : String),
        items[j]? = some (Json.obj fs) →
        alookup "text" fs = some (Json.str s) →
        10 < (pyStrip s).length →
        hasKey ((alookup "id" fs).getD (Json.str ("text_" ++ toString pn ++ "_"
          ++ toString (addr pn (i0 + j))))) segs = true := by
  intro items
  induction items with
  | nil => intro i0 acc segs h j fs s hj htxt hlen; simp at hj
  | cons item rest ih =>
      intro i0 acc segs h j fs s hj htxt hlen
      cases j with
      | zero =>
          rw [List.getElem?_cons_zero] at hj
          injection hj with hj
          subst hj
          simp only [extractTextsAux, htxt] at h
          rw [if_pos hlen] at h
          rw [Nat.add_zero]
          exact extractTextsAux_hasKey_mono addr pn _ rest (i0 + 1) _ segs
            (hasKey_dinsert_self _ _ _) h
      | succ j' =>
          rw [List.getElem?_cons_succ] at hj
          have harith : i0 + (j' + 1) = (i0 + 1) + j' := by omega
          rw [harith]
          cases item with
          | obj gfs =>
              simp only [extractTextsAux] at h
              cases hg : alookup "text" gfs with
              | none => rw [hg] at h; exact ih (i0 + 1) _ segs h j' fs s hj htxt hlen
              | some tv =>
                  cases tv with
                  | str t =>
                      rw [hg] at h
                      dsimp only at h
                      by_cases hl : (pyStrip t).length > 10
                      · rw [if_pos hl] at h
                        exact ih (i0 + 1) _ segs h j' fs s hj htxt hlen
                      · rw [if_neg hl] at h
                        exact ih (i0 + 1) _ segs h j' fs s hj htxt hlen
                  | null => rw [hg] at h; simp at h
                  | bool x => rw [hg] at h; simp at h
                  | num x => rw [hg] at h; simp at h
                  | arr x => rw [hg] at h; simp at h
                  | obj x => rw [hg] at h; simp at h
          | null =>
              simp only [extractTextsAux] at h
              exact ih (i0 + 1) _ segs h j' fs s hj htxt hlen
          | bool x =>
              simp only [extractTextsAux] at h
              exact ih (i0 + 1) _ segs h j' fs s hj htxt hlen
          | num x =>
              simp only [extractTextsAux] at h
              exact ih (i0 + 1) _ segs h j' fs s hj htxt hlen
          | str x =>
              simp only [extractTextsAux] at h
              exact ih (i0 + 1) _ segs h j' fs s hj htxt hlen
          | arr x =>
              simp only [extractTextsAux] at h
              exact ih (i0 + 1) _ segs h j' fs s hj htxt hlen

theorem extractPagesAux_cons (addr : Nat → Nat → Nat) (i0 : Nat) (p : Json)
    (rest : List Json) (acc segs : List (Json × SegData))
    (h : extractPagesAux addr i0 (p :: rest) acc = some segs) :
    ∃ acc', extractPagesAux addr (i0 + 1) rest acc' = some segs := by
  simp only [extractPagesAux] at h
  repeat' split at h
  all_goals first
    | exact ⟨_, h⟩
    | simp at h

theorem extractPagesAux_includes (addr : Nat → Nat → Nat) :
    ∀ (pages : List Json) (i0 : Nat) (acc segs : List (Json × SegData)),
      extractPagesAux addr i0 pages acc = some segs →
      ∀ (pj : Nat) (pfs : List (String × Json)) (blocks : List Json)
        (bj : Nat) (bfs : List (String × Json)) (s : String),
        pages[pj]? = some (Json.obj pfs) →
        alookup "texts" pfs = some (Json.arr blocks) →
        blocks[bj]? = some (Json.obj bfs) →
        alookup "text" bfs = some (Json.str s) →
        10 < (pyStrip s).length →
        hasKey ((alookup "id" bfs).getD (Json.str ("text_" ++ toString (i0 + pj + 1) ++ "_"
          ++ toString (addr (i0 + pj + 1) bj)))) segs = true := by
  intro pages
  induction pages with
  | nil => intro i0 acc segs h pj pfs blocks bj bfs s hpj; simp at hpj
  | cons p rest ih =>
      intro i0 acc segs h pj pfs blocks bj bfs s hpj htex hbj htxt hlen
      cases pj with
      | zero =>
          rw [List.getElem?_cons_zero] at hpj
          injection hpj with hpj
          subst hpj
          simp only [extractPagesAux, htex] at h
          cases htb : extractTextsAux addr (i0 + 1) 0 blocks acc with
          | none => rw [htb] at h; simp at h
          | some acc' =>
              rw [htb] at h
              have hkey := extractTextsAux_includes addr (i0 + 1) blocks 0 acc acc' htb
                bj bfs s hbj htxt hlen
              rw [Nat.zero_add] at hkey
              have harith : i0 + 0 + 1 = i0 + 1 := by omega
              rw [harith]
              exact extractPagesAux_hasKey_mono addr _ rest (i0 + 1) acc' segs hkey h
      | succ pj' =>
          rw [List.getElem?_cons_succ] at hpj
          rcases extractPagesAux_cons addr i0 p rest acc segs h with ⟨acc', h'⟩
          have harith : i0 + (pj' + 1) + 1 = (i0 + 1) + pj' + 1 := by omega
          rw [harith]
          exact ih (i0 + 1) acc' segs h' pj' pfs blocks bj bfs s hpj htex hbj htxt hlen

theorem extractItemsAux_includes (addr : Nat → Nat → Nat) (pn : Nat) :
    ∀ (its : List Json) (i0 : Nat) (acc segs : List (Json × SegData)),
      extractItemsAux addr pn i0 its acc = some segs →
      ∀ (j : Nat) (fs : List (String × Json)) (s : String),
        its[j]? = some (Json.obj fs) →
        (alookup "type" fs).getD Json.null = Json.str "text" →
        (alookup "content" fs).getD (Json.str "") = Json.str s →
        10 < (pyStrip s).length →
        hasKey ((alookup "id" fs).getD (Json.str ("item_" ++ toString pn ++ "_"
          ++ toString (addr pn (i0 + j))))) segs = true := by
  intro its
  induction its with
  | nil => intro i0 acc segs h j fs s hj hty hc hlen; simp at hj
  | cons it rest ih =>
      intro i0 acc segs h j fs s hj hty hc hlen
      cases j with
      | zero =>
          rw [List.getElem?_cons_zero] at hj
          injection hj with hj
          subst hj
          simp only [extractItemsAux] at h
          rw [if_pos hty, hc] at h
          dsimp only at h
          rw [if_pos hlen] at h
          rw [Nat.add_zero]
          exact extractItemsAux_hasKey_mono addr pn _ rest (i0 + 1) _ segs
            (hasKey_dinsert_self _ _ _) h
      | succ j' =>
          rw [List.getElem?_cons_succ] at hj
          have harith : i0 + (j' + 1) = (i0 + 1) + j' := by omega
          rw [harith]
          cases it with
          | obj gfs =>
              simp only [extractItemsAux] at h
              by_cases hty2 : (alookup "type" gfs).getD Json.null = Json.str "text"
              · rw [if_pos hty2] at h
                cases hc2 : (alookup "content" gfs).getD (Json.str "") with
                | str t =>
                    rw [hc2] at h
                    dsimp only at h
                    by_cases hl : (pyStrip t).length > 10
                    · rw [if_pos hl] at h
                      exact ih (i0 + 1) _ segs h j' fs s hj hty hc hlen
                    · rw [if_neg hl] at h
                      exact ih (i0 + 1) _ segs h j' fs s hj hty hc hlen
                | null => rw [hc2] at h; simp at h
                | bool x => rw [hc2] at h; simp at h
                | num x => rw [hc2] at h; simp at h
                | arr x => rw [hc2] at h; simp at h
                | obj x => rw [hc2] at h; simp at h
              · rw [if_neg hty2] at h
                exact ih (i0 + 1) _ segs h j' fs s hj hty hc hlen
          | null =>
              simp only [extractItemsAux] at h
              exact ih (i0 + 1) _ segs h j' fs s hj hty hc hlen
          | bool x =>
              simp only [extractItemsAux] at h
              exact ih (i0 + 1) _ segs h j' fs s hj hty hc hlen
          | num x =>
              simp only [extractItemsAux] at h
              exact ih (i0 + 1) _ segs h j' fs s hj hty hc hlen
          | str x =>
              simp only [extractItemsAux] at h
              exact ih (i0 + 1) _ segs h j' fs s hj hty hc hlen
          | arr x =>
              simp only [extractItemsAux] at h
              exact ih (i0 + 1) _ segs h j' fs s hj hty hc hlen

theorem extractPagesAux_items_includes (addr : Nat → Nat → Nat) :
    ∀ (pages : List Json) (i0 : Nat) (acc segs : List (Json × SegData)),
      extractPagesAux addr i0 pages acc = some segs →
      ∀ (pj : Nat) (pfs : List (String × Json)) (its : List Json)
        (ij : Nat) (ifs : List (String × Json)) (s : String),
        pages[pj]? = some (Json.obj pfs) →
        (∀ bs, alookup "texts" pfs ≠ some (Json.arr bs)) →
        alookup "items" pfs = some (Json.arr its) →
        its[ij]? = some (Json.obj ifs) →
        (alookup "type" ifs).getD Json.null = Json.str "text" →
        (alookup "content" ifs).getD (Json.str "") = Json.str s →
        10 < (pyStrip s).length →
        hasKey ((alookup "id" ifs).getD (Json.str ("item_" ++ toString (i0 + pj + 1) ++ "_"
          ++ toString (addr (i0 + pj + 1) ij)))) segs = true := by
  intro pages
  induction pages with
  | nil => intro i0 acc segs h pj pfs its ij ifs s hpj; simp at hpj
  | cons p rest ih =>
      intro i0 acc segs h pj pfs its ij ifs s hpj htex hit hij hty hc hlen
      cases pj with
      | zero =>
          rw [List.getElem?_cons_zero] at hpj
          injection hpj with hpj
          subst hpj
          simp only [extractPagesAux] at h
          have harith : i0 + 0 + 1 = i0 + 1 := by omega
          rw [harith]
          cases htexv : alookup "texts" pfs with
          | none =>
                  rw [hit] at h
                  dsimp only at h
                  cases hia : extractItemsAux addr (i0 + 1) 0 its acc with
                  | none => rw [hia] at h; simp at h
                  | some acc' =>
                      rw [hia] at h
                      have hkey := extractItemsAux_includes addr (i0 + 1) its 0 acc acc' hia
                        ij ifs s hij hty hc hlen
                      rw [Nat.zero_add] at hkey
                      exact extractPagesAux_hasKey_mono addr _ rest (i0 + 1) acc' segs hkey h
          | some tv =>
              cases tv with
              | arr bs => exact absurd htexv (htex bs)
              | null =>
                  rw [hit] at h
                  dsimp only at h
                  cases hia : extractItemsAux addr (i0 + 1) 0 its acc with
                  | none => rw [hia] at h; simp at h
                  | some acc' =>
                      rw [hia] at h
                      have hkey := extractItemsAux_includes addr (i0 + 1) its 0 acc acc' hia
                        ij ifs s hij hty hc hlen
                      rw [Nat.zero_add] at hkey
                      exact extractPagesAux_hasKey_mono addr _ rest (i0 + 1) acc' segs hkey h
              | bool x =>
                  rw [hit] at h
                  dsimp only at h
                  cases hia : extractItemsAux addr (i0 + 1) 0 its acc with
                  | none => rw [hia] at h; simp at h
                  | some acc' =>
                      rw [hia] at h
                      have hkey := extractItemsAux_includes addr (i0 + 1) its 0 acc acc' hia
                        ij ifs s hij hty hc hlen
                      rw [Nat.zero_add] at hkey
                      exact extractPagesAux_hasKey_mono addr _ rest (i0 + 1) acc' segs hkey h
              | num x =>
                  rw [hit] at h
                  dsimp only at h
                  cases hia : extractItemsAux addr (i0 + 1) 0 its acc with
                  | none => rw [hia] at h; simp at h
                  | some acc' =>
                      rw [hia] at h
                      have hkey := extractItemsAux_includes addr (i0 + 1) its 0 acc acc' hia
                        ij ifs s hij hty hc hlen
                      rw [Nat.zero_add] at hkey
                      exact extractPagesAux_hasKey_mono addr _ rest (i0 + 1) acc' segs hkey h
              | str x =>
                  rw [hit] at h
                  dsimp only at h
                  cases hia : extractItemsAux addr (i0 + 1) 0 its acc with
                  | none => rw [hia] at h; simp at h
                  | some acc' =>
                      rw [hia] at h
                      have hkey := extractItemsAux_includes addr (i0 + 1) its 0 acc acc' hia
                        ij ifs s hij hty hc hlen
                      rw [Nat.zero_add] at hkey
                      exact extractPagesAux_hasKey_mono addr _ rest (i0 + 1) acc' segs hkey h
              | obj x =>
                  rw [hit] at h
                  dsimp only at h
                  cases hia : extractItemsAux addr (i0 + 1) 0 its acc with
                  | none => rw [hia] at h; simp at h
                  | some acc' =>
                      rw [hia] at h
                      have hkey := extractItemsAux_includes addr (i0 + 1) its 0 acc acc' hia
                        ij ifs s hij hty hc hlen
                      rw [Nat.zero_add] at hkey
                      exact extractPagesAux_hasKey_mono addr _ rest (i0 + 1) acc' segs hkey h
      | succ pj' =>
          rw [List.getElem?_cons_succ] at hpj
          rcases extractPagesAux_cons addr i0 p rest acc segs h with ⟨acc', h'⟩
          have harith : i0 + (pj' + 1) + 1 = (i0 + 1) + pj' + 1 := by omega
          rw [harith]
          exact ih (i0 + 1) acc' segs h' pj' pfs its ij ifs s hpj htex hit hij hty hc hlen

/- ### C6 -/

/-- C6 (amended): extraction filters on `len(text) > 10`, so exactly the
segments whose stripped text is at most 10 characters are dropped: every
extracted segment is strictly longer than 10 characters; in each of the
three extraction shapes (flat list, pages/texts, pages/items) every
candidate whose stripped text exceeds 10 characters is included; and a
10-character text is excluded. -/
theorem C6_length_filter :
    (∀ (addr : Nat → Nat → Nat) (data : Json) (segs : List (Json × SegData)),
        extractSegments addr data = some segs →
        ∀ kv ∈ segs, 10 < kv.2.text.length)
    ∧ (∀ (addr : Nat → Nat → Nat) (items : List Json) (segs : List (Json × SegData))
        (j : Nat) (fs : List (String × Json)) (s : String),
        extractSegments addr (Json.arr items) = some segs →
        items[j]? = some (Json.obj fs) →
        alookup "text" fs = some (Json.str s) →
        10 < (pyStrip s).length →
        hasKey ((alookup "id" fs).getD (Json.str ("seg_" ++ toString j))) segs = true)
    ∧ (∀ (addr : Nat → Nat → Nat) (fs : List (String × Json)) (pages : List Json)
        (segs : List (Json × SegData)) (pj : Nat) (pfs : List (String × Json))
        (blocks : List Json) (bj : Nat) (bfs : List (String × Json)) (s : String),
        extractSegments addr (Json.obj fs) = some segs →
        alookup "pages" fs = some (Json.arr pages) →
        pages[pj]? = some (Json.obj pfs) →
        alookup "texts" pfs = some (Json.arr blocks) →
        blocks[bj]? = some (Json.obj bfs) →
        alookup "text" bfs = some (Json.str s) →
        10 < (pyStrip s).length →
        hasKey ((alookup "id" bfs).getD (Json.str ("text_" ++ toString (pj + 1) ++ "_"
          ++ toString (addr (pj + 1) bj)))) segs = true)
    ∧ (∀ (addr : Nat → Nat → Nat) (fs : List (String × Json)) (pages : List Json)
        (segs : List (Json × SegData)) (pj : Nat) (pfs : List (String × Json))
        (its : List Json) (ij : Nat) (ifs : List (String × Json)) (s : String),
        extractSegments addr (Json.obj fs) = some segs →
        alookup "pages" fs = some (Json.arr pages) →
        pages[pj]? = some (Json.obj pfs) →
        (∀ bs, alookup "texts" pfs ≠ some (Json.arr bs)) →
        alookup "items" pfs = some (Json.arr its) →
        its[ij]? = some (Json.obj ifs) →
        (alookup "type" ifs).getD Json.null = Json.str "text" →
        (alookup "content" ifs).getD (Json.str "") = Json.str s →
        10 < (pyStrip s).length →
        hasKey ((alookup "id" ifs).getD (Json.str ("item_" ++ toString (pj + 1) ++ "_"
          ++ toString (addr (pj + 1) ij)))) segs = true)
    ∧ extractSegments addrA (Json.arr [Json.obj [("text", Json.str "abcdefghij")]]) = some [] := by
  refine ⟨extractSegments_all_long, ?_, ?_, ?_, by decide⟩
  · intro addr items segs j fs s hex hj htxt hlen
    simp only [extractSegments] at hex
    have hk := extractListAux_includes items 0 [] segs hex j fs s hj htxt hlen
    rwa [Nat.zero_add] at hk
  · intro addr fs pages segs pj pfs blocks bj bfs s hex hp hpj htex hbj htxt hlen
    simp only [extractSegments, hp] at hex
    have hk := extractPagesAux_includes addr pages 0 [] segs hex pj pfs blocks bj bfs s
      hpj htex hbj htxt hlen
    rwa [Nat.zero_add] at hk
  · intro addr fs pages segs pj pfs its ij ifs s hex hp hpj htex hit hij hty hc hlen
    simp only [extractSegments, hp] at hex
    have hk := extractPagesAux_items_includes addr pages 0 [] segs hex pj pfs its ij ifs s
      hpj htex hit hij hty hc hlen
    rwa [Nat.zero_add] at hk

/-- C6 witness: an 11-character segment is included in each of the three
shapes, shown through the theorem's inclusion conjuncts at concrete inputs. -/
theorem C6_witness :
    hasKey (Json.str "seg_0")
      [(Json.str "seg_0", (⟨"abcdefghijk", Json.num 1, Json.arr []⟩ : SegData))] = true
    ∧ hasKey (Json.str "text_1_1000")
      [(Json.str "text_1_1000", (⟨"abcdefghijk", Json.num 1, Json.arr []⟩ : SegData))] = true
    ∧ hasKey (Json.str "item_1_1000")
      [(Json.str "item_1_1000", (⟨"abcdefghijk", Json.num 1, Json.arr []⟩ : SegData))] = true :=
  ⟨C6_length_filter.2.1 addrA [Json.obj [("text", Json.str "abcdefghijk")]]
      [(Json.str "seg_0", ⟨"abcdefghijk", Json.num 1, Json.arr []⟩)] 0
      [("text", Json.str "abcdefghijk")] "abcdefghijk"
      (by decide) (by decide) (by decide) (by decide),
   C6_length_filter.2.2.1 addrA
      [("pages", Json.arr [Json.obj [("texts",
        Json.arr [Json.obj [("text", Json.str "abcdefghijk")]])]])]
      [Json.obj [("texts", Json.arr [Json.obj [("text", Json.str "abcdefghijk")]])]]
      [(Json.str "text_1_1000", ⟨"abcdefghijk", Json.num 1, Json.arr []⟩)]
      0 [("texts", Json.arr [Json.obj [("text", Json.str "abcdefghijk")]])]
      [Json.obj [("text", Json.str "abcdefghijk")]] 0
      [("text", Json.str "abcdefghijk")] "abcdefghijk"
      (by decide) (by decide) (by decide) (by decide) (by decide) (by decide) (by decide),
   C6_length_filter.2.2.2.1 addrA
      [("pages", Json.arr [Json.obj [("items", Json.arr
        [Json.obj [("type", Json.str "text"), ("content", Json.str "abcdefghijk")]])]])]
      [Json.obj [("items", Json.arr
        [Json.obj [("type", Json.str "text"), ("content", Json.str "abcdefghijk")]])]]
      [(Json.str "item_1_1000", ⟨"abcdefghijk", Json.num 1, Json.arr []⟩)]
      0 [("items", Json.arr
        [Json.obj [("type", Json.str "text"), ("content", Json.str "abcdefghijk")]])]
      [Json.obj [("type", Json.str "text"), ("content", Json.str "abcdefghijk")]] 0
      [("type", Json.str "text"), ("content", Json.str "abcdefghijk")] "abcdefghijk"
      (by decide) (by decide) (by decide) (by intro bs hb; simp [alookup] at hb)
      (by decide) (by decide) (by decide) (by decide) (by decide)⟩

/-- C6 counterexample: a segment whose stripped text has length exactly 10 is
excluded by the code, contradicting the claim that 10-or-more characters are
included. -/
theorem C6_counterexample :
    ("abcdefghij" : String).length = 10
    ∧ pyStrip "abcdefghij" = "abcdefghij"
    ∧ extractSegments addrA (Json.arr [Json.obj [("text", Json.str "abcdefghij")]])
        = some [] := by
  refine ⟨by decide, by decide, by decide⟩

/- ### C7 -/

/-- The pages-format document (no source ids) used to exhibit the
identity-based fallback ids. -/
def C7doc : Json :=
  Json.obj [("pages", Json.arr [Json.obj [("texts",
    Json.arr [Json.obj [("text", Json.str "this is a long text block")]])]])]

/-- C7: the fallback id for a pages-format text block embeds Python's
`id(text_block)` (modelled by the address oracle): two extractions of the
same content under different address assignments — as happens across process
restarts — produce different segment ids, refuting determinism. The spec
itself records this identity-based id generation as a source defect (§9). -/
theorem C7_identity_based_ids :
    extractSegments addrA C7doc
      = some [(Json.str "text_1_1000",
          ⟨"this is a long text block", Json.num 1, Json.arr []⟩)]
    ∧ extractSegments addrB C7doc
      = some [(Json.str "text_1_2000",
          ⟨"this is a long text block", Json.num 1, Json.arr []⟩)]
    ∧ Json.str "text_1_1000" ≠ Json.str "text_1_2000" := by
  refine ⟨by decide, by decide, by decide⟩

/- ### C9 -/

/-- C9 (amended): with a valid query body, the chat endpoint returns 404 when
no analysis file exists for the hash; when the file exists but the RAG
handler failed to initialize at boot, calling `query` on the `None` handler
raises and the endpoint returns the generic 500, not an explicit 503. -/
theorem C9_chat_error_codes (hInit fExists : Bool) (fs : List (String × Json))
    (q : Json) (hq : hasKey "query" fs = true) (hne : fs ≠ []) :
    (fExists = false → (chat_with_document hInit fExists (some fs) q).code = 404)
    ∧ (fExists = true → hInit = false →
        (chat_with_document hInit fExists (some fs) q).code = 500) := by
  have hie : fs.isEmpty = false := by
    cases fs with
    | nil => exact absurd rfl hne
    | cons a l => rfl
  constructor
  · intro hf
    subst hf
    simp [chat_with_document, hie, hq, ChatResp.code]
  · intro hf hi
    subst hf; subst hi
    simp [chat_with_document, hie, hq, ChatResp.code]

/-- C9 witness: a concrete valid query body, at a missing file (404) and at a
present file with the handler uninitialized (500). -/
theorem C9_witness :
    hasKey "query" [("query", Json.str "q")] = true
    ∧ (chat_with_document false false (some [("query", Json.str "q")]) Json.null).code = 404
    ∧ (chat_with_document false true (some [("query", Json.str "q")]) Json.null).code = 500 :=
  ⟨by decide,
   (C9_chat_error_codes false false [("query", Json.str "q")] Json.null
      (by decide) (by decide)).1 rfl,
   (C9_chat_error_codes false true [("query", Json.str "q")] Json.null
      (by decide) (by decide)).2 rfl rfl⟩

/-- C9 counterexample: analysis present, valid query, handler uninitialized:
the endpoint returns the catch-all 500, not the explicit 503 the claim
states. -/
theorem C9_counterexample :
    chat_with_document false true (some [("query", Json.str "q")]) Json.null
      = ChatResp.serverError
          "Chat processing error: 'NoneType' object has no attribute 'query'"
    ∧ (chat_with_document false true (some [("query", Json.str "q")]) Json.null).code = 500
    ∧ (500 : Nat) ≠ 503 := by
  refine ⟨by decide, by decide, by decide⟩

/- ### C3 -/

